import Mathlib

/-!
Shallow embedding of the Bitespeed identity-reconciliation service.

The embedded code is `src/services/contactService.ts` (the reconciliation
core: `identifyContact` and `buildResponse`) together with the request
validation of the `/identify` Express route (`identifyRouter`).

Modelling conventions:
* The Prisma `Contact` table is a `List Contact` in table (insertion) order,
  together with the autoincrement counter `nextId` and a clock `now` used for
  the `createdAt` / `updatedAt` columns (timestamps are `Nat`).
* `prisma.contact.findMany` with a `where` clause is a `List.filter`;
  `orderBy: { createdAt: "asc" }` is a stable insertion sort by `createdAt`
  (rows with equal `createdAt` keep table order, which for rows created by
  autoincrement ids is ascending id order).
* `update` / `updateMany` are `List.map` over the table.
* JavaScript truthiness is modelled exactly: a `string | null` value is
  truthy iff it is non-null and not `""`; a `number | null` id is truthy iff
  it is non-null and not `0`.
* The JS crash when `primaryContacts` is empty (`truePrimary` is `undefined`
  and `truePrimary.id` throws) is modelled by `identifyContact` returning
  `none`; the crash happens before any write, so the store is unchanged.
-/

namespace IdentityRecon

/-- linkPrecedence column: "primary" | "secondary". -/
inductive Precedence where
  | primary
  | secondary
deriving Repr, DecidableEq

/-- One row of the Contact table. -/
structure Contact where
  id : Nat
  email : Option String
  phoneNumber : Option String
  linkPrecedence : Precedence
  linkedId : Option Nat
  createdAt : Nat
  updatedAt : Nat
  deletedAt : Option Nat
deriving Repr, DecidableEq

/-- The persisted Contact table plus the autoincrement counter and a clock. -/
structure Store where
  contacts : List Contact
  nextId : Nat
  now : Nat
deriving Repr, DecidableEq

/-- The consolidated response shape (field name typo is in the source). -/
structure ContactResponse where
  primaryContatctId : Nat
  emails : List String
  phoneNumbers : List String
  secondaryContactIds : List Nat
deriving Repr, DecidableEq

/-- JS truthiness of a `string | null` value: non-null and not `""`. -/
def truthy : Option String → Bool
  | none => false
  | some s => !(s == "")

/-- The `where` clause of the step-1 lookup: non-deleted and (email matches
or phoneNumber matches), each OR-clause present only when the request value
is truthy (the source spreads `...(email ? [{ email }] : [])`). -/
def matchesContact (email phoneNumber : Option String) (c : Contact) : Prop :=
  c.deletedAt = none ∧
    ((truthy email = true ∧ c.email = email) ∨
     (truthy phoneNumber = true ∧ c.phoneNumber = phoneNumber))

instance (email phoneNumber : Option String) (c : Contact) :
    Decidable (matchesContact email phoneNumber c) := by
  unfold matchesContact; infer_instance

/-- `prisma.contact.findMany({ where: { deletedAt: null, OR: [...] } })`. -/
def findByEmailOrPhone (email phoneNumber : Option String) (s : Store) : List Contact :=
  s.contacts.filter fun c => decide (matchesContact email phoneNumber c)

/-- `Set.add` with JS insertion order: append if absent. -/
def pushIdIfAbsent (acc : List Nat) (n : Nat) : List Nat :=
  if n ∈ acc then acc else acc ++ [n]

/-- The per-row contribution to `primaryIds`: a primary row contributes its
own id; otherwise a truthy `linkedId` (non-null, non-zero) contributes that
id; otherwise nothing (the source's `if primary / else if (contact.linkedId)`). -/
def rootIdOf (c : Contact) : Option Nat :=
  if c.linkPrecedence = .primary then some c.id
  else match c.linkedId with
    | some n => if n ≠ 0 then some n else none
    | none => none

/-- The `primaryIds` Set built by the loop over `matchingContacts`,
as a list in insertion order. -/
def collectPrimaryIds (cs : List Contact) : List Nat :=
  cs.foldl
    (fun acc c =>
      match rootIdOf c with
      | some n => pushIdIfAbsent acc n
      | none => acc)
    []

/-- Stable insertion of a row into a list sorted ascending by `createdAt`:
the new row goes before the first strictly later row, after equal ones. -/
def insertByCreatedAt (c : Contact) : List Contact → List Contact
  | [] => [c]
  | d :: ds => if c.createdAt ≤ d.createdAt then c :: d :: ds else d :: insertByCreatedAt c ds

/-- Stable sort ascending by `createdAt` (`orderBy: { createdAt: "asc" }`);
rows with equal `createdAt` keep their table order. -/
def sortByCreatedAt : List Contact → List Contact
  | [] => []
  | c :: cs => insertByCreatedAt c (sortByCreatedAt cs)

/-- `prisma.contact.findMany({ where: { id: { in: ids }, deletedAt: null },
orderBy: { createdAt: "asc" } })`. -/
def findPrimaries (ids : List Nat) (s : Store) : List Contact :=
  sortByCreatedAt (s.contacts.filter fun c => decide (c.id ∈ ids ∧ c.deletedAt = none))

/-- `prisma.contact.findMany({ where: { linkedId: id, deletedAt: null } })`. -/
def findByLinkedId (id : Nat) (s : Store) : List Contact :=
  s.contacts.filter fun c => decide (c.linkedId = some id ∧ c.deletedAt = none)

/-- Row transform of `prisma.contact.update({ where: { id: targetId },
data: { linkPrecedence, linkedId, updatedAt: new Date() } })`. -/
def updateRow (targetId : Nat) (prec : Precedence) (lid : Option Nat) (now : Nat)
    (c : Contact) : Contact :=
  if c.id = targetId then { c with linkPrecedence := prec, linkedId := lid, updatedAt := now }
  else c

/-- `prisma.contact.update` on the table. -/
def updateLinkage (targetId : Nat) (prec : Precedence) (lid : Option Nat) (s : Store) : Store :=
  { s with contacts := s.contacts.map (updateRow targetId prec lid s.now) }

/-- Row transform of `prisma.contact.updateMany({ where: { linkedId: oldId,
deletedAt: null }, data: { linkedId: newId } })`. -/
def reassignRow (oldId newId : Nat) (c : Contact) : Contact :=
  if c.linkedId = some oldId ∧ c.deletedAt = none then { c with linkedId := some newId }
  else c

/-- `prisma.contact.updateMany` on the table. -/
def reassignLinkedId (oldId newId : Nat) (s : Store) : Store :=
  { s with contacts := s.contacts.map (reassignRow oldId newId) }

/-- One iteration of the merge loop: demote `p` to secondary under the true
primary, then re-point every non-deleted row whose `linkedId` was `p.id`. -/
def demoteRoot (tpId : Nat) (s : Store) (p : Contact) : Store :=
  reassignLinkedId p.id tpId (updateLinkage p.id .secondary (some tpId) s)

/-- The step-3b merge loop `for (const p of toMerge) { update; updateMany }`. -/
def mergeRoots (tpId : Nat) (toMerge : List Contact) (s : Store) : Store :=
  toMerge.foldl (demoteRoot tpId) s

/-- `prisma.contact.create`: assigns `id := nextId`, stamps `createdAt` and
`updatedAt` with the clock, `deletedAt := null`, appends to the table. -/
def createContact (email phoneNumber : Option String) (prec : Precedence)
    (lid : Option Nat) (s : Store) : Contact × Store :=
  let c : Contact :=
    { id := s.nextId, email := email, phoneNumber := phoneNumber,
      linkPrecedence := prec, linkedId := lid,
      createdAt := s.now, updatedAt := s.now, deletedAt := none }
  (c, { s with contacts := s.contacts ++ [c], nextId := s.nextId + 1 })

/-- `allContacts.map(c => c.email).filter(Boolean)` as a list of strings. -/
def groupEmails (cs : List Contact) : List String :=
  (cs.filterMap (·.email)).filter fun v => !(v == "")

/-- `allContacts.map(c => c.phoneNumber).filter(Boolean)`. -/
def groupPhones (cs : List Contact) : List String :=
  (cs.filterMap (·.phoneNumber)).filter fun v => !(v == "")

/-- `value && !set.has(value)`: the request value is truthy and absent from
the group's value set. -/
def isNewVal (v : Option String) (vals : List String) : Bool :=
  match v with
  | some x => !(x == "") && !(vals.contains x)
  | none => false

/-- `if (primary.email) emails.push(primary.email)`. -/
def initVal : Option String → List String
  | some x => if !(x == "") then [x] else []
  | none => []

/-- `if (v && !acc.includes(v)) acc.push(v)` for one secondary's value. -/
def pushVal (acc : List String) (v : Option String) : List String :=
  match v with
  | some x => if !(x == "") && !(acc.contains x) then acc ++ [x] else acc
  | none => acc

/-- `buildResponse(primary, secondaries)`: primary's email/phone first (when
truthy), then each secondary's value in list order, skipping falsy values
and values already collected; `secondaryContactIds` in list order. -/
def buildResponse (primary : Contact) (secondaries : List Contact) : ContactResponse :=
  { primaryContatctId := primary.id
    emails := secondaries.foldl (fun acc c => pushVal acc c.email) (initVal primary.email)
    phoneNumbers :=
      secondaries.foldl (fun acc c => pushVal acc c.phoneNumber) (initVal primary.phoneNumber)
    secondaryContactIds := secondaries.map (·.id) }

/-- `identifyContact(email, phoneNumber)` over a store: returns the response
and the post-state, or `none` when `primaryContacts` comes back empty and the
JS code crashes dereferencing `undefined` (before any write). -/
def identifyContact (email phoneNumber : Option String) (s : Store) :
    Option (ContactResponse × Store) :=
  let matchingContacts := findByEmailOrPhone email phoneNumber s
  if matchingContacts.isEmpty then
    let res := createContact email phoneNumber .primary none s
    some (buildResponse res.1 [], res.2)
  else
    match findPrimaries (collectPrimaryIds matchingContacts) s with
    | [] => none
    | truePrimary :: toMerge =>
      let s1 := mergeRoots truePrimary.id toMerge s
      let allSecondaries := findByLinkedId truePrimary.id s1
      let allContacts := truePrimary :: allSecondaries
      if isNewVal email (groupEmails allContacts) ||
          isNewVal phoneNumber (groupPhones allContacts) then
        let res := createContact email phoneNumber .secondary (some truePrimary.id) s1
        some (buildResponse truePrimary (allSecondaries ++ [res.1]), res.2)
      else
        some (buildResponse truePrimary allSecondaries, s1)

/-- The root list computed by steps 3 of `identifyContact`: the distinct
root ids of the matching contacts, fetched ordered by `createdAt`. -/
def rootsOf (email phoneNumber : Option String) (s : Store) : List Contact :=
  findPrimaries (collectPrimaryIds (findByEmailOrPhone email phoneNumber s)) s

/-- Row-level effect of one merge-loop iteration (update then updateMany),
applied to a single table row. -/
def mergeStepRow (tpId now : Nat) (c : Contact) (p : Contact) : Contact :=
  reassignRow p.id tpId (updateRow p.id .secondary (some tpId) now c)

/-- Row-level effect of the whole merge loop on a single table row. -/
def applyMerge (tpId now : Nat) (toMerge : List Contact) (c : Contact) : Contact :=
  toMerge.foldl (mergeStepRow tpId now) c

/-- Strict ordering by `(createdAt, id)` lexicographically. -/
def LexLt (a b : Contact) : Prop :=
  a.createdAt < b.createdAt ∨ (a.createdAt = b.createdAt ∧ a.id < b.id)

/-- A request field value the route can actually pass to the service:
either null or a non-empty string (the route maps falsy values to null). -/
def OkVal (v : Option String) : Prop := v ≠ some ""

instance (v : Option String) : Decidable (OkVal v) := by
  unfold OkVal
  infer_instance

/-- Well-formedness of a store, as maintained by the service: rows are in
ascending-id table order, ids are positive, below the autoincrement counter,
primaries carry no `linkedId`, and every non-deleted secondary links to an
existing non-deleted primary (one level of indirection). -/
def WF (s : Store) : Prop :=
  s.contacts.Pairwise (fun a b => a.id < b.id) ∧
  (∀ c ∈ s.contacts, 0 < c.id) ∧
  (∀ c ∈ s.contacts, c.id < s.nextId) ∧
  0 < s.nextId ∧
  (∀ c ∈ s.contacts, c.linkPrecedence = .primary → c.linkedId = none) ∧
  (∀ c ∈ s.contacts, c.deletedAt = none → c.linkPrecedence = .secondary →
    ∃ q ∈ s.contacts, c.linkedId = some q.id ∧ q.linkPrecedence = .primary ∧ q.deletedAt = none)

instance (s : Store) : Decidable (WF s) := by
  unfold WF; infer_instance

/-- A matched record resolves to a root the step-3 fetch can return: it is
itself a primary, or its `linkedId` is truthy and references an existing
non-deleted row. -/
def Resolves (s : Store) (c : Contact) : Prop :=
  c.linkPrecedence = .primary ∨
    ∃ n, c.linkedId = some n ∧ n ≠ 0 ∧ ∃ q ∈ s.contacts, q.id = n ∧ q.deletedAt = none

instance (s : Store) (c : Contact) : Decidable (Resolves s c) := by
  unfold Resolves; infer_instance

/-- Outcome of a run of `identifyContact` under a store-failure schedule. -/
inductive FOutcome where
  | ok (r : ContactResponse)
  | storeFailure
  | crash
deriving Repr, DecidableEq

/-- The merge loop under a failure schedule: `sched k` says whether the k-th
store operation of the request succeeds. Each iteration issues the demotion
update and the bulk re-point as two separate operations; a failure surfaces
the store as it stands at that point. -/
def mergeRootsF (sched : Nat → Bool) (tpId : Nat) (toMerge : List Contact) (k : Nat)
    (s : Store) : Except Store (Nat × Store) :=
  match toMerge with
  | [] => .ok (k, s)
  | p :: rest =>
    if sched k then
      let s1 := updateLinkage p.id .secondary (some tpId) s
      if sched (k + 1) then
        mergeRootsF sched tpId rest (k + 2) (reassignLinkedId p.id tpId s1)
      else .error s1
    else .error s

/-- `identifyContact` under a store-failure schedule: the same control flow,
with every Prisma call numbered in program order; a failed call aborts the
request, leaving the store as already written. -/
def identifyContactF (sched : Nat → Bool) (email phoneNumber : Option String)
    (s : Store) : FOutcome × Store :=
  if sched 0 then
    let matchingContacts := findByEmailOrPhone email phoneNumber s
    if matchingContacts.isEmpty then
      if sched 1 then
        let res := createContact email phoneNumber .primary none s
        (.ok (buildResponse res.1 []), res.2)
      else (.storeFailure, s)
    else
      if sched 1 then
        match findPrimaries (collectPrimaryIds matchingContacts) s with
        | [] => (.crash, s)
        | truePrimary :: toMerge =>
          match mergeRootsF sched truePrimary.id toMerge 2 s with
          | .error sf => (.storeFailure, sf)
          | .ok (k, s1) =>
            if sched k then
              let allSecondaries := findByLinkedId truePrimary.id s1
              let allContacts := truePrimary :: allSecondaries
              if isNewVal email (groupEmails allContacts) ||
                  isNewVal phoneNumber (groupPhones allContacts) then
                if sched (k + 1) then
                  let res := createContact email phoneNumber .secondary (some truePrimary.id) s1
                  (.ok (buildResponse truePrimary (allSecondaries ++ [res.1])), res.2)
                else (.storeFailure, s1)
              else (.ok (buildResponse truePrimary allSecondaries), s1)
            else (.storeFailure, s1)
      else (.storeFailure, s)
  else (.storeFailure, s)

/-- Outcome of the POST /identify route. -/
inductive RouteResult where
  | ok (r : ContactResponse)
  | invalidInput
  | internalError
deriving Repr, DecidableEq

/-- The Express route: reject with 400 when both request fields are falsy,
otherwise normalize falsy values to null (`email ? String(email) : null`) and
call the service; a service crash surfaces as a 500 with the store unchanged
(the crash occurs before any write). -/
def identifyRoute (email phoneNumber : Option String) (s : Store) : RouteResult × Store :=
  if truthy email = false ∧ truthy phoneNumber = false then
    (.invalidInput, s)
  else
    let e := if truthy email then email else none
    let p := if truthy phoneNumber then phoneNumber else none
    match identifyContact e p s with
    | some (r, s1) => (.ok r, s1)
    | none => (.internalError, s)

/-- The shape a demoted former-primary row takes after the merge loop. -/
def demotedForm (tpId now : Nat) (c : Contact) : Contact :=
  { c with linkPrecedence := .secondary, linkedId := some tpId, updatedAt := now }

/-- Example row: primary, created first, carries an email. -/
def rowA : Contact :=
  { id := 1, email := some "a@x.com", phoneNumber := none, linkPrecedence := .primary,
    linkedId := none, createdAt := 0, updatedAt := 0, deletedAt := none }

/-- Example row: an independent primary, created later, carries a phone. -/
def rowB : Contact :=
  { id := 2, email := none, phoneNumber := some "111", linkPrecedence := .primary,
    linkedId := none, createdAt := 1, updatedAt := 1, deletedAt := none }

/-- Example row: a secondary linked to `rowB`. -/
def rowC : Contact :=
  { id := 3, email := some "c@x.com", phoneNumber := some "222", linkPrecedence := .secondary,
    linkedId := some 2, createdAt := 2, updatedAt := 2, deletedAt := none }

/-- Store with two independent primaries and a secondary under the later one. -/
def storeABC : Store := { contacts := [rowA, rowB, rowC], nextId := 4, now := 9 }

/-- Store with two independent primaries. -/
def storeAB : Store := { contacts := [rowA, rowB], nextId := 3, now := 9 }

/-- Store with a single primary. -/
def storeA : Store := { contacts := [rowA], nextId := 2, now := 9 }

/-- The empty store. -/
def emptyStore : Store := { contacts := [], nextId := 1, now := 0 }

/-- A representable but ill-formed row: a secondary whose `linkedId` is null. -/
def badRow : Contact :=
  { id := 1, email := some "a@x.com", phoneNumber := none, linkPrecedence := .secondary,
    linkedId := none, createdAt := 0, updatedAt := 0, deletedAt := none }

/-- A store whose only matching row resolves to no root primary. -/
def badStore : Store := { contacts := [badRow], nextId := 2, now := 5 }

/-- Failure schedule: the first three store operations succeed, the fourth
(the bulk re-point of the first merge iteration) fails. -/
def schedFail3 : Nat → Bool := fun k => decide (k < 3)

/-! ### Row-transform lemmas: linkage updates touch only
`linkPrecedence`, `linkedId` and `updatedAt` -/

theorem mergeStepRow_id (tpId now : Nat) (c p : Contact) :
    (mergeStepRow tpId now c p).id = c.id := by
  unfold mergeStepRow reassignRow updateRow
  split <;> split <;> rfl

theorem mergeStepRow_email (tpId now : Nat) (c p : Contact) :
    (mergeStepRow tpId now c p).email = c.email := by
  unfold mergeStepRow reassignRow updateRow
  split <;> split <;> rfl

theorem mergeStepRow_phone (tpId now : Nat) (c p : Contact) :
    (mergeStepRow tpId now c p).phoneNumber = c.phoneNumber := by
  unfold mergeStepRow reassignRow updateRow
  split <;> split <;> rfl

theorem mergeStepRow_createdAt (tpId now : Nat) (c p : Contact) :
    (mergeStepRow tpId now c p).createdAt = c.createdAt := by
  unfold mergeStepRow reassignRow updateRow
  split <;> split <;> rfl

theorem mergeStepRow_deletedAt (tpId now : Nat) (c p : Contact) :
    (mergeStepRow tpId now c p).deletedAt = c.deletedAt := by
  unfold mergeStepRow reassignRow updateRow
  split <;> split <;> rfl

theorem applyMerge_nil (tpId now : Nat) (c : Contact) :
    applyMerge tpId now [] c = c := rfl

theorem applyMerge_cons (tpId now : Nat) (p : Contact) (rest : List Contact) (c : Contact) :
    applyMerge tpId now (p :: rest) c = applyMerge tpId now rest (mergeStepRow tpId now c p) := rfl

theorem applyMerge_id (tpId now : Nat) (l : List Contact) (c : Contact) :
    (applyMerge tpId now l c).id = c.id := by
  induction l generalizing c with
  | nil => rfl
  | cons p rest ih => rw [applyMerge_cons, ih, mergeStepRow_id]

theorem applyMerge_email (tpId now : Nat) (l : List Contact) (c : Contact) :
    (applyMerge tpId now l c).email = c.email := by
  induction l generalizing c with
  | nil => rfl
  | cons p rest ih => rw [applyMerge_cons, ih, mergeStepRow_email]

theorem applyMerge_phone (tpId now : Nat) (l : List Contact) (c : Contact) :
    (applyMerge tpId now l c).phoneNumber = c.phoneNumber := by
  induction l generalizing c with
  | nil => rfl
  | cons p rest ih => rw [applyMerge_cons, ih, mergeStepRow_phone]

theorem applyMerge_createdAt (tpId now : Nat) (l : List Contact) (c : Contact) :
    (applyMerge tpId now l c).createdAt = c.createdAt := by
  induction l generalizing c with
  | nil => rfl
  | cons p rest ih => rw [applyMerge_cons, ih, mergeStepRow_createdAt]

theorem applyMerge_deletedAt (tpId now : Nat) (l : List Contact) (c : Contact) :
    (applyMerge tpId now l c).deletedAt = c.deletedAt := by
  induction l generalizing c with
  | nil => rfl
  | cons p rest ih => rw [applyMerge_cons, ih, mergeStepRow_deletedAt]

/-! ### The merge loop as a per-row map over the table -/

theorem mergeRoots_cons (tpId : Nat) (p : Contact) (rest : List Contact) (s : Store) :
    mergeRoots tpId (p :: rest) s = mergeRoots tpId rest (demoteRoot tpId s p) := rfl

theorem mergeRoots_eq (tpId : Nat) (l : List Contact) (s : Store) :
    mergeRoots tpId l s = { s with contacts := s.contacts.map (applyMerge tpId s.now l) } := by
  induction l generalizing s with
  | nil =>
    cases s with
    | mk cs n w =>
      show Store.mk cs n w = _
      rw [show applyMerge tpId w [] = id from rfl, List.map_id]
  | cons p rest ih =>
    rw [mergeRoots_cons, ih]
    cases s with
    | mk cs n w =>
      simp only [demoteRoot, reassignLinkedId, updateLinkage, List.map_map]
      rfl

theorem mergeRoots_contacts (tpId : Nat) (l : List Contact) (s : Store) :
    (mergeRoots tpId l s).contacts = s.contacts.map (applyMerge tpId s.now l) := by
  rw [mergeRoots_eq]

theorem mergeRoots_nextId (tpId : Nat) (l : List Contact) (s : Store) :
    (mergeRoots tpId l s).nextId = s.nextId := by
  rw [mergeRoots_eq]

theorem mergeRoots_now (tpId : Nat) (l : List Contact) (s : Store) :
    (mergeRoots tpId l s).now = s.now := by
  rw [mergeRoots_eq]

/-! ### Which rows the merge loop changes, and how -/

theorem mergeStepRow_demotes (tpId now : Nat) (c p : Contact)
    (hid : c.id = p.id) (hne : tpId ≠ p.id) :
    mergeStepRow tpId now c p = demotedForm tpId now c := by
  simp [mergeStepRow, updateRow, reassignRow, demotedForm, hid, hne]

theorem mergeStepRow_skip (tpId now : Nat) (c p : Contact)
    (hid : c.id ≠ p.id) (hlink : ¬(c.linkedId = some p.id ∧ c.deletedAt = none)) :
    mergeStepRow tpId now c p = c := by
  unfold mergeStepRow updateRow reassignRow
  rw [if_neg hid, if_neg hlink]

theorem mergeStepRow_repoints (tpId now : Nat) (c p : Contact)
    (hid : c.id ≠ p.id) (hl : c.linkedId = some p.id) (hd : c.deletedAt = none) :
    mergeStepRow tpId now c p = { c with linkedId := some tpId } := by
  unfold mergeStepRow updateRow reassignRow
  rw [if_neg hid, if_pos ⟨hl, hd⟩]

theorem mergeStepRow_fixed (tpId now : Nat) (c p : Contact)
    (h1 : c.linkPrecedence = .secondary) (h2 : c.linkedId = some tpId)
    (h3 : c.updatedAt = now) (hne : tpId ≠ p.id) :
    mergeStepRow tpId now c p = c := by
  by_cases hid : c.id = p.id
  · cases c
    simp_all [mergeStepRow, updateRow, reassignRow]
  · refine mergeStepRow_skip tpId now c p hid ?_
    rintro ⟨hl, _⟩
    rw [h2] at hl
    exact hne (by injection hl)

theorem notmem_map_id_of_cons {x : Nat} {p : Contact} {rest : List Contact}
    (h : x ∉ (p :: rest).map (·.id)) : x ∉ rest.map (·.id) := by
  intro hx
  rcases List.mem_map.mp hx with ⟨y, hy, hye⟩
  exact h (List.mem_map.mpr ⟨y, List.mem_cons_of_mem p hy, hye⟩)

theorem ne_head_id_of_notmem {x : Nat} {p : Contact} {rest : List Contact}
    (h : x ∉ (p :: rest).map (·.id)) : x ≠ p.id := by
  intro hx
  exact h (hx ▸ List.mem_map_of_mem (·.id) (List.mem_cons_self p rest))

theorem applyMerge_fixed (tpId now : Nat) (l : List Contact) (c : Contact)
    (h1 : c.linkPrecedence = .secondary) (h2 : c.linkedId = some tpId)
    (h3 : c.updatedAt = now) (htp : tpId ∉ l.map (·.id)) :
    applyMerge tpId now l c = c := by
  induction l generalizing c with
  | nil => rfl
  | cons p rest ih =>
    rw [applyMerge_cons,
      mergeStepRow_fixed tpId now c p h1 h2 h3 (ne_head_id_of_notmem htp)]
    exact ih c h1 h2 h3 (notmem_map_id_of_cons htp)

theorem applyMerge_no_touch (tpId now : Nat) (l : List Contact) (c : Contact)
    (hid : c.id ∉ l.map (·.id))
    (hlink : ∀ p ∈ l, ¬(c.linkedId = some p.id ∧ c.deletedAt = none)) :
    applyMerge tpId now l c = c := by
  induction l generalizing c with
  | nil => rfl
  | cons p rest ih =>
    rw [applyMerge_cons,
      mergeStepRow_skip tpId now c p (ne_head_id_of_notmem hid) (hlink p (List.mem_cons_self p rest))]
    exact ih c (notmem_map_id_of_cons hid) fun q hq => hlink q (List.mem_cons_of_mem p hq)

theorem applyMerge_demoted (tpId now : Nat) (l : List Contact) (c : Contact)
    (h : c.id ∈ l.map (·.id)) (htp : tpId ∉ l.map (·.id)) :
    applyMerge tpId now l c = demotedForm tpId now c := by
  induction l generalizing c with
  | nil => exact absurd h (List.not_mem_nil _)
  | cons p rest ih =>
    have hne : tpId ≠ p.id := ne_head_id_of_notmem htp
    have htpr : tpId ∉ rest.map (·.id) := notmem_map_id_of_cons htp
    rw [applyMerge_cons]
    by_cases hcp : c.id = p.id
    · rw [mergeStepRow_demotes tpId now c p hcp hne]
      exact applyMerge_fixed tpId now rest (demotedForm tpId now c) rfl rfl rfl htpr
    · have hcr : c.id ∈ rest.map (·.id) := by
        rcases List.mem_map.mp h with ⟨x, hxm, hxe⟩
        rcases List.mem_cons.mp hxm with hx | hx
        · exact absurd (hx ▸ hxe) fun hh => hcp hh.symm
        · exact List.mem_map.mpr ⟨x, hx, hxe⟩
      by_cases hr : c.linkedId = some p.id ∧ c.deletedAt = none
      · rw [mergeStepRow_repoints tpId now c p hcp hr.1 hr.2,
          ih { c with linkedId := some tpId } hcr htpr]
        rfl
      · rw [mergeStepRow_skip tpId now c p hcp hr]
        exact ih c hcr htpr

theorem applyMerge_repointed (tpId now : Nat) (l : List Contact) (c : Contact) (q : Nat)
    (hid : c.id ∉ l.map (·.id)) (hdel : c.deletedAt = none)
    (hq : c.linkedId = some q) (hqin : q ∈ l.map (·.id)) (htp : tpId ∉ l.map (·.id)) :
    applyMerge tpId now l c = { c with linkedId := some tpId } := by
  induction l generalizing c with
  | nil => exact absurd hqin (List.not_mem_nil _)
  | cons p rest ih =>
    have hcp : c.id ≠ p.id := ne_head_id_of_notmem hid
    have hidr : c.id ∉ rest.map (·.id) := notmem_map_id_of_cons hid
    have htpr : tpId ∉ rest.map (·.id) := notmem_map_id_of_cons htp
    rw [applyMerge_cons]
    by_cases hqp : q = p.id
    · rw [mergeStepRow_repoints tpId now c p hcp (hqp ▸ hq) hdel]
      refine applyMerge_no_touch tpId now rest _ hidr ?_
      rintro p' hp' ⟨hl, _⟩
      have : tpId = p'.id := by injection hl
      exact htpr (this ▸ List.mem_map_of_mem (·.id) hp')
    · have hstep : mergeStepRow tpId now c p = c := by
        refine mergeStepRow_skip tpId now c p hcp ?_
        rintro ⟨hl, _⟩
        rw [hq] at hl
        exact hqp (by injection hl)
      rw [hstep]
      have hqr : q ∈ rest.map (·.id) := by
        rcases List.mem_map.mp hqin with ⟨x, hxm, hxe⟩
        rcases List.mem_cons.mp hxm with hx | hx
        · exact absurd (hx ▸ hxe).symm hqp
        · exact List.mem_map.mpr ⟨x, hx, hxe⟩
      exact ih c hidr hdel hq hqr htpr

/-! ### The root fetch: a stable sort by createdAt -/

theorem insertByCreatedAt_perm (c : Contact) (l : List Contact) :
    (insertByCreatedAt c l).Perm (c :: l) := by
  induction l with
  | nil => exact List.Perm.refl _
  | cons d ds ih =>
    unfold insertByCreatedAt
    split
    · exact List.Perm.refl _
    · exact (List.Perm.cons d ih).trans (List.Perm.swap c d ds)

theorem sortByCreatedAt_perm (l : List Contact) : (sortByCreatedAt l).Perm l := by
  induction l with
  | nil => exact List.Perm.refl _
  | cons c cs ih =>
    exact (insertByCreatedAt_perm c (sortByCreatedAt cs)).trans (List.Perm.cons c ih)

theorem mem_sortByCreatedAt {a : Contact} {l : List Contact} :
    a ∈ sortByCreatedAt l ↔ a ∈ l :=
  (sortByCreatedAt_perm l).mem_iff

theorem insertByCreatedAt_pairwise (c : Contact) (l : List Contact)
    (hl : l.Pairwise LexLt) (hc : ∀ d ∈ l, c.id < d.id) :
    (insertByCreatedAt c l).Pairwise LexLt := by
  induction l with
  | nil => simp [insertByCreatedAt]
  | cons d ds ih =>
    rcases List.pairwise_cons.mp hl with ⟨hd, hds⟩
    unfold insertByCreatedAt
    split
    case isTrue h =>
      refine List.pairwise_cons.mpr ⟨?_, hl⟩
      intro x hx
      rcases List.mem_cons.mp hx with rfl | hx
      · rcases Nat.lt_or_ge c.createdAt x.createdAt with h' | h'
        · exact Or.inl h'
        · exact Or.inr ⟨Nat.le_antisymm h h', hc x (List.mem_cons_self _ _)⟩
      · rcases hd x hx with h' | ⟨h', _⟩
        · exact Or.inl (Nat.lt_of_le_of_lt h h')
        · rcases Nat.lt_or_ge c.createdAt x.createdAt with h2 | h2
          · exact Or.inl h2
          · exact Or.inr ⟨Nat.le_antisymm (h' ▸ h) (h' ▸ h2), hc x (List.mem_cons_of_mem d hx)⟩
    case isFalse h =>
      have hdc : d.createdAt < c.createdAt := Nat.lt_of_not_le h
      refine List.pairwise_cons.mpr ⟨?_, ih hds fun x hx => hc x (List.mem_cons_of_mem d hx)⟩
      intro x hx
      have hx2 : x ∈ c :: ds := (insertByCreatedAt_perm c ds).subset hx
      rcases List.mem_cons.mp hx2 with rfl | hx2
      · exact Or.inl hdc
      · exact hd x hx2

theorem sortByCreatedAt_pairwise (l : List Contact)
    (h : l.Pairwise fun a b => a.id < b.id) :
    (sortByCreatedAt l).Pairwise LexLt := by
  induction l with
  | nil => simp [sortByCreatedAt]
  | cons c cs ih =>
    rcases List.pairwise_cons.mp h with ⟨hc, hcs⟩
    exact insertByCreatedAt_pairwise c (sortByCreatedAt cs) (ih hcs)
      fun d hd => hc d ((sortByCreatedAt_perm cs).subset hd)

/-! ### The primaryIds Set -/

theorem mem_pushIdIfAbsent (acc : List Nat) (n x : Nat) :
    x ∈ pushIdIfAbsent acc n ↔ x ∈ acc ∨ x = n := by
  unfold pushIdIfAbsent
  by_cases h : n ∈ acc
  · rw [if_pos h]
    constructor
    · exact Or.inl
    · rintro (hx | rfl)
      · exact hx
      · exact h
  · rw [if_neg h]
    simp

theorem mem_collect_aux (cs : List Contact) (acc : List Nat) (x : Nat) :
    x ∈ cs.foldl
        (fun acc c =>
          match rootIdOf c with
          | some n => pushIdIfAbsent acc n
          | none => acc) acc ↔
      x ∈ acc ∨ ∃ c ∈ cs, rootIdOf c = some x := by
  induction cs generalizing acc with
  | nil => simp
  | cons c rest ih =>
    rw [List.foldl_cons, ih]
    cases hr : rootIdOf c with
    | none => simp [hr]
    | some n =>
      rw [mem_pushIdIfAbsent]
      constructor
      · rintro ((hx | rfl) | hx)
        · exact Or.inl hx
        · exact Or.inr ⟨c, List.mem_cons_self _ _, hr⟩
        · rcases hx with ⟨d, hd, hde⟩
          exact Or.inr ⟨d, List.mem_cons_of_mem c hd, hde⟩
      · rintro (hx | ⟨d, hd, hde⟩)
        · exact Or.inl (Or.inl hx)
        · rcases List.mem_cons.mp hd with rfl | hd
          · rw [hr] at hde
            exact Or.inl (Or.inr (by injection hde.symm))
          · exact Or.inr ⟨d, hd, hde⟩

theorem mem_collectPrimaryIds {cs : List Contact} {x : Nat} :
    x ∈ collectPrimaryIds cs ↔ ∃ c ∈ cs, rootIdOf c = some x := by
  rw [collectPrimaryIds, mem_collect_aux]
  simp

theorem collect_const_aux (cs : List Contact) (t : Nat)
    (h : ∀ c ∈ cs, rootIdOf c = some t) :
    ∀ acc, t ∈ acc →
      cs.foldl
        (fun acc c =>
          match rootIdOf c with
          | some n => pushIdIfAbsent acc n
          | none => acc) acc = acc := by
  induction cs with
  | nil => intro acc _; rfl
  | cons c rest ih =>
    intro acc hacc
    rw [List.foldl_cons, h c (List.mem_cons_self _ _)]
    show rest.foldl _ (pushIdIfAbsent acc t) = acc
    rw [pushIdIfAbsent, if_pos hacc]
    exact ih (fun d hd => h d (List.mem_cons_of_mem c hd)) acc hacc

theorem collectPrimaryIds_const (cs : List Contact) (t : Nat) (hne : cs ≠ [])
    (h : ∀ c ∈ cs, rootIdOf c = some t) : collectPrimaryIds cs = [t] := by
  cases cs with
  | nil => exact absurd rfl hne
  | cons c rest =>
    rw [collectPrimaryIds, List.foldl_cons, h c (List.mem_cons_self _ _)]
    show rest.foldl _ (pushIdIfAbsent [] t) = [t]
    rw [pushIdIfAbsent, if_neg (List.not_mem_nil t), List.nil_append]
    exact collect_const_aux rest t (fun d hd => h d (List.mem_cons_of_mem c hd)) [t]
      (List.mem_singleton.mpr rfl)

/-! ### Table lookups across writes -/

theorem matchesContact_applyMerge (e p : Option String) (tpId now : Nat)
    (l : List Contact) (c : Contact) :
    matchesContact e p (applyMerge tpId now l c) ↔ matchesContact e p c := by
  unfold matchesContact
  rw [applyMerge_email, applyMerge_phone, applyMerge_deletedAt]

theorem findByEmailOrPhone_merge (e p : Option String) (tpId : Nat)
    (l : List Contact) (s : Store) :
    findByEmailOrPhone e p (mergeRoots tpId l s) =
      (findByEmailOrPhone e p s).map (applyMerge tpId s.now l) := by
  unfold findByEmailOrPhone
  rw [mergeRoots_contacts, List.filter_map]
  congr 1
  apply List.filter_congr
  intro c _
  exact decide_eq_decide.mpr (matchesContact_applyMerge e p tpId s.now l c)

theorem createContact_snd_contacts (e p : Option String) (prec : Precedence)
    (lid : Option Nat) (s : Store) :
    (createContact e p prec lid s).2.contacts =
      s.contacts ++ [(createContact e p prec lid s).1] := rfl

theorem createContact_snd_nextId (e p : Option String) (prec : Precedence)
    (lid : Option Nat) (s : Store) :
    (createContact e p prec lid s).2.nextId = s.nextId + 1 := rfl

theorem createContact_fst (e p : Option String) (prec : Precedence)
    (lid : Option Nat) (s : Store) :
    (createContact e p prec lid s).1 =
      { id := s.nextId, email := e, phoneNumber := p, linkPrecedence := prec,
        linkedId := lid, createdAt := s.now, updatedAt := s.now, deletedAt := none } := rfl

theorem findByEmailOrPhone_createContact (e p e' p' : Option String)
    (prec : Precedence) (lid : Option Nat) (s : Store) :
    findByEmailOrPhone e p (createContact e' p' prec lid s).2 =
      findByEmailOrPhone e p s ++
        (if decide (matchesContact e p (createContact e' p' prec lid s).1) then
          [(createContact e' p' prec lid s).1] else []) := by
  unfold findByEmailOrPhone
  rw [createContact_snd_contacts, List.filter_append]
  congr 1
  rw [List.filter_cons]
  split <;> rfl

theorem findByLinkedId_createContact (n : Nat) (e' p' : Option String)
    (prec : Precedence) (lid : Option Nat) (s : Store) :
    findByLinkedId n (createContact e' p' prec lid s).2 =
      findByLinkedId n s ++
        (if decide ((createContact e' p' prec lid s).1.linkedId = some n ∧
            (createContact e' p' prec lid s).1.deletedAt = none) then
          [(createContact e' p' prec lid s).1] else []) := by
  unfold findByLinkedId
  rw [createContact_snd_contacts, List.filter_append]
  congr 1
  rw [List.filter_cons]
  split <;> rfl

/-! ### Unique ids -/

theorem nodup_map_id_of_pairwise {l : List Contact}
    (h : l.Pairwise fun a b => a.id < b.id) : (l.map (·.id)).Nodup :=
  List.pairwise_map.mpr (h.imp fun hab => Nat.ne_of_lt hab)

theorem eq_of_mem_of_id_eq {l : List Contact} (h : l.Pairwise fun a b => a.id < b.id)
    {a b : Contact} (ha : a ∈ l) (hb : b ∈ l) (heq : a.id = b.id) : a = b := by
  induction l with
  | nil => exact absurd ha (List.not_mem_nil _)
  | cons c rest ih =>
    rcases List.pairwise_cons.mp h with ⟨hc, hrest⟩
    rcases List.mem_cons.mp ha with rfl | ha2
    · rcases List.mem_cons.mp hb with rfl | hb2
      · rfl
      · exact absurd heq (Nat.ne_of_lt (hc b hb2))
    · rcases List.mem_cons.mp hb with rfl | hb2
      · exact absurd heq.symm (Nat.ne_of_lt (hc a ha2))
      · exact ih hrest ha2 hb2

theorem filter_eq_singleton_of_nodup {α : Type} {l : List α} (hn : l.Nodup)
    (p : α → Bool) (c : α) (hc : c ∈ l) (hpc : p c = true)
    (huniq : ∀ d ∈ l, p d = true → d = c) : l.filter p = [c] := by
  induction l with
  | nil => exact absurd hc (List.not_mem_nil _)
  | cons a rest ih =>
    rcases List.nodup_cons.mp hn with ⟨hna, hnrest⟩
    rw [List.filter_cons]
    by_cases hpa : p a = true
    · have hac : a = c := huniq a (List.mem_cons_self _ _) hpa
      rw [if_pos hpa]
      have : rest.filter p = [] := by
        rw [List.filter_eq_nil_iff]
        intro d hd hpd
        have : d = c := huniq d (List.mem_cons_of_mem a hd) hpd
        exact hna ((hac ▸ this) ▸ hd)
      rw [this, hac]
    · rw [if_neg hpa]
      have hcr : c ∈ rest := by
        rcases List.mem_cons.mp hc with rfl | hcr
        · exact absurd hpc hpa
        · exact hcr
      exact ih hnrest hcr fun d hd hpd => huniq d (List.mem_cons_of_mem a hd) hpd

/-! ### Unfolding the three control-flow paths of identifyContact -/

theorem identifyContact_no_match (e p : Option String) (s : Store)
    (h : findByEmailOrPhone e p s = []) :
    identifyContact e p s =
      some (buildResponse (createContact e p .primary none s).1 [],
        (createContact e p .primary none s).2) := by
  unfold identifyContact
  simp only [h, List.isEmpty_nil, if_true]

theorem identifyContact_crash (e p : Option String) (s : Store)
    (h : findByEmailOrPhone e p s ≠ []) (hr : rootsOf e p s = []) :
    identifyContact e p s = none := by
  unfold identifyContact
  rw [rootsOf] at hr
  simp only [hr, List.isEmpty_eq_false.mpr h, Bool.false_eq_true, if_false]

theorem identifyContact_match (e p : Option String) (s : Store) (tp : Contact)
    (tm : List Contact) (h : findByEmailOrPhone e p s ≠ [])
    (hr : rootsOf e p s = tp :: tm) :
    identifyContact e p s =
      (if isNewVal e (groupEmails (tp :: findByLinkedId tp.id (mergeRoots tp.id tm s))) ||
          isNewVal p (groupPhones (tp :: findByLinkedId tp.id (mergeRoots tp.id tm s))) then
        some
          (buildResponse tp
            (findByLinkedId tp.id (mergeRoots tp.id tm s) ++
              [(createContact e p .secondary (some tp.id) (mergeRoots tp.id tm s)).1]),
          (createContact e p .secondary (some tp.id) (mergeRoots tp.id tm s)).2)
      else
        some (buildResponse tp (findByLinkedId tp.id (mergeRoots tp.id tm s)),
          mergeRoots tp.id tm s)) := by
  unfold identifyContact
  rw [rootsOf] at hr
  simp only [hr, List.isEmpty_eq_false.mpr h, Bool.false_eq_true, if_false]

/-! ### Membership views of the lookups -/

theorem mem_findByEmailOrPhone {e p : Option String} {s : Store} {c : Contact} :
    c ∈ findByEmailOrPhone e p s ↔ c ∈ s.contacts ∧ matchesContact e p c := by
  unfold findByEmailOrPhone
  rw [List.mem_filter, decide_eq_true_eq]

theorem mem_findByLinkedId {n : Nat} {s : Store} {c : Contact} :
    c ∈ findByLinkedId n s ↔ c ∈ s.contacts ∧ c.linkedId = some n ∧ c.deletedAt = none := by
  unfold findByLinkedId
  rw [List.mem_filter, decide_eq_true_eq]

theorem mem_findPrimaries {ids : List Nat} {s : Store} {c : Contact} :
    c ∈ findPrimaries ids s ↔ c ∈ s.contacts ∧ c.id ∈ ids ∧ c.deletedAt = none := by
  unfold findPrimaries
  rw [mem_sortByCreatedAt, List.mem_filter, decide_eq_true_eq]

theorem sortByCreatedAt_eq_nil_iff {l : List Contact} : sortByCreatedAt l = [] ↔ l = [] := by
  constructor
  · intro h
    have := (sortByCreatedAt_perm l).length_eq
    rw [h] at this
    exact List.length_eq_zero.mp this.symm
  · intro h
    rw [h]
    rfl

/-! ### Root resolution facts -/

theorem rootsOf_mem {e p : Option String} {s : Store} {q : Contact}
    (hq : q ∈ rootsOf e p s) :
    q ∈ s.contacts ∧ q.deletedAt = none ∧
      q.id ∈ collectPrimaryIds (findByEmailOrPhone e p s) := by
  rcases mem_findPrimaries.mp hq with ⟨h1, h2, h3⟩
  exact ⟨h1, h3, h2⟩

theorem rootsOf_primary {e p : Option String} {s : Store} {q : Contact}
    (hwf : WF s) (hq : q ∈ rootsOf e p s) :
    q.linkPrecedence = .primary ∧ q.linkedId = none := by
  obtain ⟨hmem, _, hid⟩ := rootsOf_mem hq
  obtain ⟨c, hc, hrc⟩ := mem_collectPrimaryIds.mp hid
  obtain ⟨hcs, hcm⟩ := mem_findByEmailOrPhone.mp hc
  unfold rootIdOf at hrc
  by_cases hcp : c.linkPrecedence = .primary
  · rw [if_pos hcp] at hrc
    have hce : c.id = q.id := by injection hrc
    have : c = q := eq_of_mem_of_id_eq hwf.1 hcs hmem hce
    subst this
    exact ⟨hcp, hwf.2.2.2.2.1 c hcs hcp⟩
  · rw [if_neg hcp] at hrc
    have hsec : c.linkPrecedence = .secondary := by
      cases hlp : c.linkPrecedence
      · exact absurd hlp hcp
      · rfl
    obtain ⟨qq, hqq, hlink, hqqp, hqqd⟩ :=
      hwf.2.2.2.2.2 c hcs hcm.1 hsec
    rw [hlink] at hrc
    have hne : qq.id ≠ 0 := Nat.pos_iff_ne_zero.mp (hwf.2.1 qq hqq)
    have hrc : (if qq.id ≠ 0 then some qq.id else none) = some q.id := hrc
    rw [if_pos hne] at hrc
    have : qq.id = q.id := by injection hrc
    have : qq = q := eq_of_mem_of_id_eq hwf.1 hqq hmem this
    subst this
    exact ⟨hqqp, hwf.2.2.2.2.1 qq hqq hqqp⟩

theorem rootsOf_pairwise {e p : Option String} {s : Store} (hwf : WF s) :
    (rootsOf e p s).Pairwise LexLt :=
  sortByCreatedAt_pairwise _ (List.Pairwise.sublist (List.filter_sublist _) hwf.1)

theorem rootsOf_ids_nodup {e p : Option String} {s : Store} (hwf : WF s) :
    ((rootsOf e p s).map (·.id)).Nodup := by
  have h1 : ((s.contacts.filter fun c =>
      decide (c.id ∈ collectPrimaryIds (findByEmailOrPhone e p s) ∧ c.deletedAt = none)).map
        (·.id)).Nodup :=
    nodup_map_id_of_pairwise (List.Pairwise.sublist (List.filter_sublist _) hwf.1)
  exact (List.Perm.nodup_iff ((sortByCreatedAt_perm _).map (·.id))).mpr h1

theorem rootsOf_head_notin_tail {e p : Option String} {s : Store} {tp : Contact}
    {tm : List Contact} (hwf : WF s) (hr : rootsOf e p s = tp :: tm) :
    tp.id ∉ tm.map (·.id) := by
  have := rootsOf_ids_nodup (e := e) (p := p) hwf
  rw [hr, List.map_cons] at this
  exact (List.nodup_cons.mp this).1

theorem resolves_of_wf {e p : Option String} {s : Store} {c : Contact}
    (hwf : WF s) (hc : c ∈ findByEmailOrPhone e p s) : Resolves s c := by
  obtain ⟨hcs, hcm⟩ := mem_findByEmailOrPhone.mp hc
  by_cases hcp : c.linkPrecedence = .primary
  · exact Or.inl hcp
  · have hsec : c.linkPrecedence = .secondary := by
      cases hlp : c.linkPrecedence
      · exact absurd hlp hcp
      · rfl
    obtain ⟨q, hq, hlink, _, hqd⟩ := hwf.2.2.2.2.2 c hcs hcm.1 hsec
    exact Or.inr ⟨q.id, hlink, Nat.pos_iff_ne_zero.mp (hwf.2.1 q hq), q, hq, rfl, hqd⟩

theorem rootsOf_ne_nil_of_witness {e p : Option String} {s : Store} (d : Contact)
    (hd : d ∈ s.contacts) (hdd : d.deletedAt = none)
    (hdi : d.id ∈ collectPrimaryIds (findByEmailOrPhone e p s)) :
    rootsOf e p s ≠ [] := by
  intro hnil
  rw [rootsOf] at hnil
  have h1 := sortByCreatedAt_eq_nil_iff.mp hnil
  have h2 : d ∈ s.contacts.filter fun c =>
      decide (c.id ∈ collectPrimaryIds (findByEmailOrPhone e p s) ∧ c.deletedAt = none) :=
    List.mem_filter.mpr ⟨hd, decide_eq_true_eq.mpr ⟨hdi, hdd⟩⟩
  rw [h1] at h2
  exact List.not_mem_nil d h2

theorem rootsOf_ne_nil_of_resolves {e p : Option String} {s : Store}
    (h : ∀ c ∈ findByEmailOrPhone e p s, Resolves s c)
    (hM : findByEmailOrPhone e p s ≠ []) : rootsOf e p s ≠ [] := by
  obtain ⟨c, hc⟩ := List.exists_mem_of_ne_nil _ hM
  obtain ⟨hcs, hcm⟩ := mem_findByEmailOrPhone.mp hc
  by_cases hcp : c.linkPrecedence = .primary
  · exact rootsOf_ne_nil_of_witness c hcs hcm.1
      (mem_collectPrimaryIds.mpr ⟨c, hc, by unfold rootIdOf; rw [if_pos hcp]⟩)
  · rcases h c hc with hprim | ⟨n, hlink, hne, q, hq, hqid, hqd⟩
    · exact absurd hprim hcp
    · refine rootsOf_ne_nil_of_witness q hq hqd
        (mem_collectPrimaryIds.mpr ⟨c, hc, ?_⟩)
      unfold rootIdOf
      rw [if_neg hcp, hlink]
      show (if n ≠ 0 then some n else none) = some q.id
      rw [if_pos hne, hqid]

/-! ### The merge loop: complete per-row case analysis -/

theorem applyMerge_trichotomy (tpId now : Nat) (l : List Contact) (c : Contact)
    (htp : tpId ∉ l.map (·.id)) :
    (c.id ∈ l.map (·.id) ∧ applyMerge tpId now l c = demotedForm tpId now c) ∨
    (c.id ∉ l.map (·.id) ∧ c.deletedAt = none ∧ (∃ q ∈ l.map (·.id), c.linkedId = some q) ∧
      applyMerge tpId now l c = { c with linkedId := some tpId }) ∨
    (c.id ∉ l.map (·.id) ∧ ¬(c.deletedAt = none ∧ ∃ q ∈ l.map (·.id), c.linkedId = some q) ∧
      applyMerge tpId now l c = c) := by
  by_cases h1 : c.id ∈ l.map (·.id)
  · exact Or.inl ⟨h1, applyMerge_demoted tpId now l c h1 htp⟩
  · by_cases h2 : c.deletedAt = none ∧ ∃ q ∈ l.map (·.id), c.linkedId = some q
    · obtain ⟨hd, q, hqm, hql⟩ := h2
      exact Or.inr (Or.inl ⟨h1, hd, ⟨q, hqm, hql⟩,
        applyMerge_repointed tpId now l c q h1 hd hql hqm htp⟩)
    · refine Or.inr (Or.inr ⟨h1, h2, applyMerge_no_touch tpId now l c h1 ?_⟩)
      rintro p hp ⟨hl, hd⟩
      exact h2 ⟨hd, p.id, List.mem_map_of_mem (·.id) hp, hl⟩

/-- Facts about the head of the root list: it is an untouched, non-deleted
primary row of the store, left fixed by the merge loop. -/
theorem truePrimary_facts {e p : Option String} {s : Store} {tp : Contact}
    {tm : List Contact} (hwf : WF s) (hr : rootsOf e p s = tp :: tm) :
    tp ∈ s.contacts ∧ tp.deletedAt = none ∧ tp.linkPrecedence = .primary ∧
      tp.linkedId = none ∧ tp.id ∉ tm.map (·.id) ∧
      applyMerge tp.id s.now tm tp = tp := by
  have htp : tp ∈ rootsOf e p s := hr ▸ List.mem_cons_self tp tm
  obtain ⟨hmem, hdel, -⟩ := rootsOf_mem htp
  obtain ⟨hprim, hnone⟩ := rootsOf_primary hwf htp
  have hnotin := rootsOf_head_notin_tail hwf hr
  refine ⟨hmem, hdel, hprim, hnone, hnotin, ?_⟩
  refine applyMerge_no_touch _ _ _ _ hnotin ?_
  rintro q hq ⟨hl, -⟩
  rw [hnone] at hl
  cases hl

/-! ### Well-formedness is preserved by the service's writes -/

theorem WF_createContact (e p : Option String) (prec : Precedence) (lid : Option Nat)
    (s : Store) (hwf : WF s)
    (hok : (prec = .primary ∧ lid = none) ∨
      (prec = .secondary ∧ ∃ q ∈ s.contacts, lid = some q.id ∧
        q.linkPrecedence = .primary ∧ q.deletedAt = none)) :
    WF (createContact e p prec lid s).2 := by
  obtain ⟨hs, hpos, hlt, hnext, hprim, hsec⟩ := hwf
  refine ⟨?_, ?_, ?_, Nat.succ_pos _, ?_, ?_⟩
  · show (s.contacts ++ [_]).Pairwise _
    rw [List.pairwise_append]
    refine ⟨hs, List.pairwise_singleton _ _, ?_⟩
    intro a ha b hb
    rcases List.mem_singleton.mp hb with rfl
    exact hlt a ha
  · intro c hc
    rcases List.mem_append.mp hc with hc | hc
    · exact hpos c hc
    · rcases List.mem_singleton.mp hc with rfl
      exact hnext
  · intro c hc
    rcases List.mem_append.mp hc with hc | hc
    · exact Nat.lt_trans (hlt c hc) (Nat.lt_succ_self _)
    · rcases List.mem_singleton.mp hc with rfl
      exact Nat.lt_succ_self _
  · intro c hc hcp
    rcases List.mem_append.mp hc with hc | hc
    · exact hprim c hc hcp
    · rcases List.mem_singleton.mp hc with rfl
      rcases hok with ⟨-, hl⟩ | ⟨hp, -⟩
      · exact hl
      · simp [hp] at hcp
  · intro c hc hcd hcs2
    rcases List.mem_append.mp hc with hc | hc
    · obtain ⟨q, hq, hlink, hqp, hqd⟩ := hsec c hc hcd hcs2
      exact ⟨q, List.mem_append_left _ hq, hlink, hqp, hqd⟩
    · rcases List.mem_singleton.mp hc with rfl
      rcases hok with ⟨hp, -⟩ | ⟨-, q, hq, hlid, hqp, hqd⟩
      · simp [hp] at hcs2
      · exact ⟨q, List.mem_append_left _ hq, hlid, hqp, hqd⟩

theorem WF_mergeRoots {e p : Option String} {s : Store} {tp : Contact}
    {tm : List Contact} (hwf : WF s) (hr : rootsOf e p s = tp :: tm) :
    WF (mergeRoots tp.id tm s) := by
  obtain ⟨htp_mem, htp_del, htp_prim, htp_none, hnotin, htp_fix⟩ := truePrimary_facts hwf hr
  obtain ⟨hs, hpos, hlt, hnext, hprim, hsec⟩ := hwf
  rw [mergeRoots_eq]
  refine ⟨?_, ?_, ?_, hnext, ?_, ?_⟩
  · exact List.pairwise_map.mpr (hs.imp fun {a b} hab => by
      rw [applyMerge_id, applyMerge_id]; exact hab)
  · intro c hc
    obtain ⟨d, hd, rfl⟩ := List.mem_map.mp hc
    rw [applyMerge_id]
    exact hpos d hd
  · intro c hc
    obtain ⟨d, hd, rfl⟩ := List.mem_map.mp hc
    rw [applyMerge_id]
    exact hlt d hd
  · intro c hc hcp
    obtain ⟨d, hd, rfl⟩ := List.mem_map.mp hc
    rcases applyMerge_trichotomy tp.id s.now tm d hnotin with
      ⟨hin, heq⟩ | ⟨hnin, hdel, ⟨q, hqm, hql⟩, heq⟩ | ⟨hnin, hng, heq⟩
    · rw [heq] at hcp
      exact absurd hcp (by simp [demotedForm])
    · rw [heq] at hcp
      have : d.linkPrecedence = .primary := hcp
      rw [hprim d hd this] at hql
      cases hql
    · rw [heq] at hcp ⊢
      exact hprim d hd hcp
  · intro c hc hcd hcs2
    obtain ⟨d, hd, rfl⟩ := List.mem_map.mp hc
    have htp_in : tp ∈ s.contacts.map (applyMerge tp.id s.now tm) :=
      List.mem_map.mpr ⟨tp, htp_mem, htp_fix⟩
    rcases applyMerge_trichotomy tp.id s.now tm d hnotin with
      ⟨hin, heq⟩ | ⟨hnin, hdel, ⟨q, hqm, hql⟩, heq⟩ | ⟨hnin, hng, heq⟩
    · rw [heq]
      exact ⟨tp, htp_in, rfl, htp_prim, htp_del⟩
    · rw [heq]
      exact ⟨tp, htp_in, rfl, htp_prim, htp_del⟩
    · rw [heq] at hcd hcs2 ⊢
      obtain ⟨q, hqm2, hlink, hqp, hqd⟩ := hsec d hd hcd hcs2
      have hq_notin : q.id ∉ tm.map (·.id) := by
        intro hin
        exact hng ⟨hcd, q.id, hin, hlink⟩
      have hq_fix : applyMerge tp.id s.now tm q = q := by
        refine applyMerge_no_touch _ _ _ _ hq_notin ?_
        rintro p' hp' ⟨hl, -⟩
        rw [hprim q hqm2 hqp] at hl
        cases hl
      exact ⟨q, List.mem_map.mpr ⟨q, hqm2, hq_fix⟩, hlink, hqp, hqd⟩

/-- The step-4 merge leaves the true primary's row in the merged table. -/
theorem truePrimary_in_merged {e p : Option String} {s : Store} {tp : Contact}
    {tm : List Contact} (hwf : WF s) (hr : rootsOf e p s = tp :: tm) :
    tp ∈ (mergeRoots tp.id tm s).contacts := by
  obtain ⟨htp_mem, -, -, -, -, htp_fix⟩ := truePrimary_facts hwf hr
  rw [mergeRoots_contacts]
  exact List.mem_map.mpr ⟨tp, htp_mem, htp_fix⟩

theorem WF_identifyContact (e p : Option String) (s s' : Store) (r : ContactResponse)
    (hwf : WF s) (h : identifyContact e p s = some (r, s')) : WF s' := by
  by_cases hM : findByEmailOrPhone e p s = []
  · rw [identifyContact_no_match e p s hM] at h
    injection h with h2
    have hb : (createContact e p .primary none s).2 = s' := congrArg Prod.snd h2
    exact hb ▸ WF_createContact e p .primary none s hwf (Or.inl ⟨rfl, rfl⟩)
  · have hroots := rootsOf_ne_nil_of_resolves (fun c hc => resolves_of_wf hwf hc) hM
    obtain ⟨tp, tm, hr⟩ : ∃ tp tm, rootsOf e p s = tp :: tm := by
      cases hrr : rootsOf e p s with
      | nil => exact absurd hrr hroots
      | cons a b => exact ⟨a, b, rfl⟩
    obtain ⟨htp_mem, htp_del, htp_prim, htp_none, hnotin, htp_fix⟩ := truePrimary_facts hwf hr
    have wf1 : WF (mergeRoots tp.id tm s) := WF_mergeRoots hwf hr
    rw [identifyContact_match e p s tp tm hM hr] at h
    split at h
    · injection h with h2
      have hb : (createContact e p .secondary (some tp.id) (mergeRoots tp.id tm s)).2 = s' :=
        congrArg Prod.snd h2
      exact hb ▸ WF_createContact e p .secondary (some tp.id) (mergeRoots tp.id tm s) wf1
        (Or.inr ⟨rfl, tp, truePrimary_in_merged hwf hr, rfl, htp_prim, htp_del⟩)
    · injection h with h2
      have hb : mergeRoots tp.id tm s = s' := congrArg Prod.snd h2
      exact hb ▸ wf1

/-! ### Small bridges -/

theorem rootsOf_nil_of_no_match {e p : Option String} {s : Store}
    (hM : findByEmailOrPhone e p s = []) : rootsOf e p s = [] := by
  rw [rootsOf, hM, findPrimaries, sortByCreatedAt_eq_nil_iff, List.filter_eq_nil_iff]
  intro c hc
  simp [collectPrimaryIds]

theorem match_ne_nil_of_roots_cons {e p : Option String} {s : Store} {tp : Contact}
    {tm : List Contact} (hr : rootsOf e p s = tp :: tm) :
    findByEmailOrPhone e p s ≠ [] := by
  intro hM
  rw [rootsOf_nil_of_no_match hM] at hr
  cases hr

theorem initVal_eq_toList {v : Option String} (hok : OkVal v) : initVal v = v.toList := by
  cases v with
  | none => rfl
  | some x =>
    have hx : x ≠ "" := fun h => hok (h ▸ rfl)
    simp [initVal, hx, Option.toList]

/-- Case dispatch for the matched path: either the novelty check fired and a
secondary was created, or the call was a pure lookup after the merge. -/
theorem identifyContact_match_cases (e p : Option String) (s : Store) (tp : Contact)
    (tm : List Contact) (r : ContactResponse) (s' : Store)
    (hr : rootsOf e p s = tp :: tm)
    (h : identifyContact e p s = some (r, s')) :
    ((isNewVal e (groupEmails (tp :: findByLinkedId tp.id (mergeRoots tp.id tm s))) ||
        isNewVal p (groupPhones (tp :: findByLinkedId tp.id (mergeRoots tp.id tm s)))) = true ∧
      r = buildResponse tp (findByLinkedId tp.id (mergeRoots tp.id tm s) ++
        [(createContact e p .secondary (some tp.id) (mergeRoots tp.id tm s)).1]) ∧
      s' = (createContact e p .secondary (some tp.id) (mergeRoots tp.id tm s)).2) ∨
    ((isNewVal e (groupEmails (tp :: findByLinkedId tp.id (mergeRoots tp.id tm s))) ||
        isNewVal p (groupPhones (tp :: findByLinkedId tp.id (mergeRoots tp.id tm s)))) = false ∧
      r = buildResponse tp (findByLinkedId tp.id (mergeRoots tp.id tm s)) ∧
      s' = mergeRoots tp.id tm s) := by
  rw [identifyContact_match e p s tp tm (match_ne_nil_of_roots_cons hr) hr] at h
  split at h
  case isTrue hc =>
    injection h with h2
    refine Or.inl ⟨hc, ?_, ?_⟩
    · exact (congrArg Prod.fst h2).symm
    · exact (congrArg Prod.snd h2).symm
  case isFalse hc =>
    injection h with h2
    refine Or.inr ⟨Bool.not_eq_true _ ▸ eq_false_of_ne_true hc, ?_, ?_⟩
    · exact (congrArg Prod.fst h2).symm
    · exact (congrArg Prod.snd h2).symm

/-! ### Claim theorems -/

/-- C9: a request in which both email and phoneNumber are absent is rejected
by the route with InvalidInput, before any store access: the store is
returned unchanged and no record is created. -/
theorem claim9_both_absent_rejected (s : Store) :
    identifyRoute none none s = (.invalidInput, s) := by
  unfold identifyRoute
  rw [if_pos ⟨rfl, rfl⟩]

/-- C6: when no non-deleted record matches the given email or phone,
Identify creates one new Primary record with null linkedId holding the given
values, and returns it as a singleton group: no secondaries, `emails` exactly
the given email (when present), `phoneNumbers` exactly the given phone. -/
theorem claim6_no_match_creates_primary (e p : Option String) (s : Store)
    (r : ContactResponse) (s' : Store) (he : OkVal e) (hp : OkVal p)
    (hM : findByEmailOrPhone e p s = [])
    (h : identifyContact e p s = some (r, s')) :
    s'.contacts = s.contacts ++ [(createContact e p .primary none s).1] ∧
    (createContact e p .primary none s).1.linkPrecedence = .primary ∧
    (createContact e p .primary none s).1.linkedId = none ∧
    (createContact e p .primary none s).1.email = e ∧
    (createContact e p .primary none s).1.phoneNumber = p ∧
    r.primaryContatctId = s.nextId ∧
    r.secondaryContactIds = [] ∧
    r.emails = e.toList ∧
    r.phoneNumbers = p.toList := by
  rw [identifyContact_no_match e p s hM] at h
  injection h with h2
  have hcr : buildResponse (createContact e p .primary none s).1 [] = r :=
    congrArg Prod.fst h2
  have hcs : (createContact e p .primary none s).2 = s' := congrArg Prod.snd h2
  refine ⟨by rw [← hcs]; rfl, rfl, rfl, rfl, rfl, ?_, ?_, ?_, ?_⟩
  · rw [← hcr]; rfl
  · rw [← hcr]; rfl
  · rw [← hcr]
    show initVal e = e.toList
    exact initVal_eq_toList he
  · rw [← hcr]
    show initVal p = p.toList
    exact initVal_eq_toList hp

/-- C10: on a representable store whose only matching row is a Secondary with
null linkedId, the primaryContacts fetch comes back empty and the code
crashes dereferencing `undefined` (modelled as `none`); and the access is
safe whenever every matched record resolves to an existing non-deleted root. -/
theorem claim10_crash_when_no_root :
    identifyContact (some "a@x.com") none badStore = none ∧
    (∀ e p s, (∀ c ∈ findByEmailOrPhone e p s, Resolves s c) →
      (identifyContact e p s).isSome = true) := by
  constructor
  · rfl
  · intro e p s h
    by_cases hM : findByEmailOrPhone e p s = []
    · rw [identifyContact_no_match e p s hM]
      rfl
    · obtain ⟨tp, tm, hr⟩ : ∃ tp tm, rootsOf e p s = tp :: tm := by
        cases hrr : rootsOf e p s with
        | nil => exact absurd hrr (rootsOf_ne_nil_of_resolves h hM)
        | cons a b => exact ⟨a, b, rfl⟩
      rw [identifyContact_match e p s tp tm hM hr]
      split <;> rfl

/-- Witness for C10: on a well-formed store every matched record resolves,
and the call returns a result. -/
theorem claim10_witness :
    (∀ c ∈ findByEmailOrPhone (some "a@x.com") none storeA, Resolves storeA c) ∧
    (identifyContact (some "a@x.com") none storeA).isSome = true :=
  ⟨by decide, claim10_crash_when_no_root.2 (some "a@x.com") none storeA (by decide)⟩

/-- C2: after every completed Identify call on a well-formed store, every
non-deleted Secondary row's linkedId references a non-deleted Primary row
(link depth at most one); and concretely, the secondary C of demoted primary
B gets re-pointed to the surviving primary A during the merge. -/
theorem claim2_one_level_links :
    (∀ e p s r s', WF s → identifyContact e p s = some (r, s') →
      ∀ c ∈ s'.contacts, c.deletedAt = none → c.linkPrecedence = .secondary →
        ∃ q ∈ s'.contacts, c.linkedId = some q.id ∧ q.linkPrecedence = .primary ∧
          q.deletedAt = none) ∧
    (∃ r s', identifyContact (some "a@x.com") (some "111") storeABC = some (r, s') ∧
      ∃ c ∈ s'.contacts, c.id = rowC.id ∧ c.linkedId = some rowA.id ∧
        ∃ b ∈ s'.contacts, b.id = rowB.id ∧ b.linkPrecedence = .secondary ∧
          b.linkedId = some rowA.id) := by
  constructor
  · intro e p s r s' hwf h
    exact (WF_identifyContact e p s s' r hwf h).2.2.2.2.2
  · exact ⟨_, _, rfl, by decide⟩

/-- Witness for C2: the invariant instantiated on a concrete merge. -/
theorem claim2_witness :
    WF storeABC ∧
    (∀ c ∈ (mergeRoots rowA.id [rowB] storeABC).contacts, c.deletedAt = none →
      c.linkPrecedence = .secondary →
      ∃ q ∈ (mergeRoots rowA.id [rowB] storeABC).contacts, c.linkedId = some q.id ∧
        q.linkPrecedence = .primary ∧ q.deletedAt = none) :=
  ⟨by decide,
    claim2_one_level_links.1 (some "a@x.com") (some "111") storeABC
      (buildResponse rowA (findByLinkedId rowA.id (mergeRoots rowA.id [rowB] storeABC)))
      (mergeRoots rowA.id [rowB] storeABC) (by decide) (by decide)⟩

theorem buildResponse_ids (prim : Contact) (secs : List Contact) :
    (buildResponse prim secs).secondaryContactIds = secs.map (·.id) := rfl

theorem buildResponse_primaryId (prim : Contact) (secs : List Contact) :
    (buildResponse prim secs).primaryContatctId = prim.id := rfl

theorem isNewVal_iff {v : Option String} {vals : List String} (hok : OkVal v) :
    isNewVal v vals = true ↔ ∃ x, v = some x ∧ x ∉ vals := by
  cases v with
  | none => simp [isNewVal]
  | some x =>
    have hx : x ≠ "" := fun h => hok (h ▸ rfl)
    simp [isNewVal, hx]

/-- C1: when the match set resolves to two or more distinct roots, the head
of the ordered root fetch is the earliest-created root (ties by ascending
id), every other root is demoted to Secondary linked to it, and the response
reports it as the primary contact id. -/
theorem claim1_oldest_wins (e p : Option String) (s : Store) (r : ContactResponse)
    (s' : Store) (tp : Contact) (tm : List Contact)
    (hwf : WF s) (h : identifyContact e p s = some (r, s'))
    (hr : rootsOf e p s = tp :: tm) (_hmulti : tm ≠ []) :
    (∀ q ∈ rootsOf e p s, q.id ≠ tp.id →
      tp.createdAt < q.createdAt ∨ (tp.createdAt = q.createdAt ∧ tp.id < q.id)) ∧
    (∀ q ∈ rootsOf e p s, q.id ≠ tp.id →
      ∃ b ∈ s'.contacts, b.id = q.id ∧ b.linkPrecedence = .secondary ∧
        b.linkedId = some tp.id) ∧
    r.primaryContatctId = tp.id := by
  have hpair := rootsOf_pairwise (e := e) (p := p) hwf
  rw [hr] at hpair
  have hmem_tm : ∀ q ∈ rootsOf e p s, q.id ≠ tp.id → q ∈ tm := by
    intro q hq hne
    rw [hr] at hq
    rcases List.mem_cons.mp hq with rfl | hq2
    · exact absurd rfl hne
    · exact hq2
  obtain ⟨htp_mem, htp_del, htp_prim, htp_none, hnotin, htp_fix⟩ := truePrimary_facts hwf hr
  refine ⟨?_, ?_, ?_⟩
  · intro q hq hne
    exact (List.pairwise_cons.mp hpair).1 q (hmem_tm q hq hne)
  · intro q hq hne
    obtain ⟨hq_mem, hq_del, -⟩ := rootsOf_mem hq
    have hq_ids : q.id ∈ tm.map (·.id) := List.mem_map_of_mem (·.id) (hmem_tm q hq hne)
    have hq_row : applyMerge tp.id s.now tm q = demotedForm tp.id s.now q :=
      applyMerge_demoted tp.id s.now tm q hq_ids hnotin
    have hb_in : demotedForm tp.id s.now q ∈ (mergeRoots tp.id tm s).contacts := by
      rw [mergeRoots_contacts]
      exact List.mem_map.mpr ⟨q, hq_mem, hq_row⟩
    rcases identifyContact_match_cases e p s tp tm r s' hr h with ⟨-, -, hs'⟩ | ⟨-, -, hs'⟩
    · subst hs'
      refine ⟨demotedForm tp.id s.now q, ?_, rfl, rfl, rfl⟩
      rw [createContact_snd_contacts]
      exact List.mem_append_left _ hb_in
    · subst hs'
      exact ⟨demotedForm tp.id s.now q, hb_in, rfl, rfl, rfl⟩
  · rcases identifyContact_match_cases e p s tp tm r s' hr h with ⟨-, hrr, -⟩ | ⟨-, hrr, -⟩ <;>
      (subst hrr; rfl)

/-- Witness for C1: the oldest-wins merge on two independent primaries. -/
theorem claim1_witness :
    WF storeAB ∧
    rootsOf (some "a@x.com") (some "111") storeAB = rowA :: [rowB] ∧
    ([rowB] : List Contact) ≠ [] ∧
    ((∀ q ∈ rootsOf (some "a@x.com") (some "111") storeAB, q.id ≠ rowA.id →
        rowA.createdAt < q.createdAt ∨
          (rowA.createdAt = q.createdAt ∧ rowA.id < q.id)) ∧
      (∀ q ∈ rootsOf (some "a@x.com") (some "111") storeAB, q.id ≠ rowA.id →
        ∃ b ∈ (mergeRoots rowA.id [rowB] storeAB).contacts, b.id = q.id ∧
          b.linkPrecedence = .secondary ∧ b.linkedId = some rowA.id) ∧
      (buildResponse rowA
        (findByLinkedId rowA.id (mergeRoots rowA.id [rowB] storeAB))).primaryContatctId =
          rowA.id) :=
  ⟨by decide, by decide, by decide,
    claim1_oldest_wins (some "a@x.com") (some "111") storeAB
      (buildResponse rowA (findByLinkedId rowA.id (mergeRoots rowA.id [rowB] storeAB)))
      (mergeRoots rowA.id [rowB] storeAB) rowA [rowB]
      (by decide) (by decide) (by decide) (by decide)⟩

/-- C8: the response's secondaryContactIds lists the ids of the group's
secondaries in fetch order, with the newly created secondary's id appended
last exactly when one was created. -/
theorem claim8_secondary_ids_order (e p : Option String) (s : Store)
    (r : ContactResponse) (s' : Store) (tp : Contact) (tm : List Contact)
    (h : identifyContact e p s = some (r, s')) (hr : rootsOf e p s = tp :: tm) :
    r.secondaryContactIds =
      (findByLinkedId tp.id (mergeRoots tp.id tm s)).map (·.id) ++
        (if (isNewVal e (groupEmails (tp :: findByLinkedId tp.id (mergeRoots tp.id tm s))) ||
            isNewVal p (groupPhones (tp :: findByLinkedId tp.id (mergeRoots tp.id tm s)))) then
          [(mergeRoots tp.id tm s).nextId] else []) := by
  rcases identifyContact_match_cases e p s tp tm r s' hr h with ⟨hc, hrr, -⟩ | ⟨hc, hrr, -⟩
  · subst hrr
    rw [hc, if_pos rfl, buildResponse_ids, List.map_append]
    rfl
  · subst hrr
    rw [hc, buildResponse_ids]
    show _ = _ ++ []
    rw [List.append_nil]

/-- Witness for C8: a pure-lookup repeat produces the merged group's ids with
nothing appended. -/
theorem claim8_witness :
    rootsOf (some "a@x.com") (some "111") storeAB = rowA :: [rowB] ∧
    (buildResponse rowA
        (findByLinkedId rowA.id (mergeRoots rowA.id [rowB] storeAB))).secondaryContactIds =
      (findByLinkedId rowA.id (mergeRoots rowA.id [rowB] storeAB)).map (·.id) ++
        (if (isNewVal (some "a@x.com")
              (groupEmails (rowA :: findByLinkedId rowA.id (mergeRoots rowA.id [rowB] storeAB))) ||
            isNewVal (some "111")
              (groupPhones (rowA :: findByLinkedId rowA.id (mergeRoots rowA.id [rowB] storeAB)))) then
          [(mergeRoots rowA.id [rowB] storeAB).nextId] else []) :=
  ⟨by decide,
    claim8_secondary_ids_order (some "a@x.com") (some "111") storeAB
      (buildResponse rowA (findByLinkedId rowA.id (mergeRoots rowA.id [rowB] storeAB)))
      (mergeRoots rowA.id [rowB] storeAB) rowA [rowB] (by decide) (by decide)⟩

/-- C4: on the matched path, exactly one new Secondary carrying the given
email/phone and linked to the true primary is created when the email is
non-null and absent from the group's email set or the phone is non-null and
absent from the group's phone set; otherwise no record is created. -/
theorem claim4_conditional_secondary_creation (e p : Option String) (s : Store)
    (r : ContactResponse) (s' : Store) (tp : Contact) (tm : List Contact)
    (he : OkVal e) (hp : OkVal p)
    (h : identifyContact e p s = some (r, s')) (hr : rootsOf e p s = tp :: tm) :
    ((∃ x, e = some x ∧
        x ∉ groupEmails (tp :: findByLinkedId tp.id (mergeRoots tp.id tm s))) ∨
      (∃ x, p = some x ∧
        x ∉ groupPhones (tp :: findByLinkedId tp.id (mergeRoots tp.id tm s))) →
      s'.contacts = (mergeRoots tp.id tm s).contacts ++
          [(createContact e p .secondary (some tp.id) (mergeRoots tp.id tm s)).1] ∧
      s'.contacts.length = s.contacts.length + 1 ∧
      (createContact e p .secondary (some tp.id) (mergeRoots tp.id tm s)).1.email = e ∧
      (createContact e p .secondary (some tp.id) (mergeRoots tp.id tm s)).1.phoneNumber = p ∧
      (createContact e p .secondary
        (some tp.id) (mergeRoots tp.id tm s)).1.linkPrecedence = .secondary ∧
      (createContact e p .secondary
        (some tp.id) (mergeRoots tp.id tm s)).1.linkedId = some tp.id) ∧
    (¬((∃ x, e = some x ∧
        x ∉ groupEmails (tp :: findByLinkedId tp.id (mergeRoots tp.id tm s))) ∨
      (∃ x, p = some x ∧
        x ∉ groupPhones (tp :: findByLinkedId tp.id (mergeRoots tp.id tm s)))) →
      s' = mergeRoots tp.id tm s ∧ s'.contacts.length = s.contacts.length) := by
  have hlen : (mergeRoots tp.id tm s).contacts.length = s.contacts.length := by
    rw [mergeRoots_contacts, List.length_map]
  have hcond :
      (isNewVal e (groupEmails (tp :: findByLinkedId tp.id (mergeRoots tp.id tm s))) ||
        isNewVal p (groupPhones (tp :: findByLinkedId tp.id (mergeRoots tp.id tm s)))) = true ↔
      ((∃ x, e = some x ∧
          x ∉ groupEmails (tp :: findByLinkedId tp.id (mergeRoots tp.id tm s))) ∨
        (∃ x, p = some x ∧
          x ∉ groupPhones (tp :: findByLinkedId tp.id (mergeRoots tp.id tm s)))) := by
    rw [Bool.or_eq_true, isNewVal_iff he, isNewVal_iff hp]
  rcases identifyContact_match_cases e p s tp tm r s' hr h with ⟨hc, -, hs'⟩ | ⟨hc, -, hs'⟩
  · constructor
    · intro _
      subst hs'
      refine ⟨rfl, ?_, rfl, rfl, rfl, rfl⟩
      rw [createContact_snd_contacts]
      rw [List.length_append, hlen]
      rfl
    · intro hneg
      exact absurd (hcond.mp hc) hneg
  · constructor
    · intro hpos
      rw [← hcond] at hpos
      rw [hc] at hpos
      cases hpos
    · intro _
      subst hs'
      exact ⟨rfl, hlen⟩

/-- Witness for C4: a novel phone on an existing one-record group creates
exactly one secondary. -/
theorem claim4_witness :
    OkVal (some "a@x.com") ∧ OkVal (some "999") ∧
    rootsOf (some "a@x.com") (some "999") storeA = rowA :: [] ∧
    (((∃ x, (some "a@x.com" : Option String) = some x ∧
        x ∉ groupEmails (rowA :: findByLinkedId rowA.id (mergeRoots rowA.id [] storeA))) ∨
      (∃ x, (some "999" : Option String) = some x ∧
        x ∉ groupPhones (rowA :: findByLinkedId rowA.id (mergeRoots rowA.id [] storeA))) →
      ((createContact (some "a@x.com") (some "999") .secondary (some rowA.id)
          (mergeRoots rowA.id [] storeA)).2).contacts =
          (mergeRoots rowA.id [] storeA).contacts ++
            [(createContact (some "a@x.com") (some "999") .secondary (some rowA.id)
              (mergeRoots rowA.id [] storeA)).1] ∧
      ((createContact (some "a@x.com") (some "999") .secondary (some rowA.id)
          (mergeRoots rowA.id [] storeA)).2).contacts.length =
            storeA.contacts.length + 1 ∧
      (createContact (some "a@x.com") (some "999") .secondary (some rowA.id)
          (mergeRoots rowA.id [] storeA)).1.email = some "a@x.com" ∧
      (createContact (some "a@x.com") (some "999") .secondary (some rowA.id)
          (mergeRoots rowA.id [] storeA)).1.phoneNumber = some "999" ∧
      (createContact (some "a@x.com") (some "999") .secondary (some rowA.id)
          (mergeRoots rowA.id [] storeA)).1.linkPrecedence = .secondary ∧
      (createContact (some "a@x.com") (some "999") .secondary (some rowA.id)
          (mergeRoots rowA.id [] storeA)).1.linkedId = some rowA.id) ∧
    (¬((∃ x, (some "a@x.com" : Option String) = some x ∧
        x ∉ groupEmails (rowA :: findByLinkedId rowA.id (mergeRoots rowA.id [] storeA))) ∨
      (∃ x, (some "999" : Option String) = some x ∧
        x ∉ groupPhones (rowA :: findByLinkedId rowA.id (mergeRoots rowA.id [] storeA)))) →
      (createContact (some "a@x.com") (some "999") .secondary (some rowA.id)
          (mergeRoots rowA.id [] storeA)).2 = mergeRoots rowA.id [] storeA ∧
      ((createContact (some "a@x.com") (some "999") .secondary (some rowA.id)
          (mergeRoots rowA.id [] storeA)).2).contacts.length = storeA.contacts.length)) :=
  ⟨by decide, by decide, by decide,
    claim4_conditional_secondary_creation (some "a@x.com") (some "999") storeA
      (buildResponse rowA
        (findByLinkedId rowA.id (mergeRoots rowA.id [] storeA) ++
          [(createContact (some "a@x.com") (some "999") .secondary (some rowA.id)
            (mergeRoots rowA.id [] storeA)).1]))
      ((createContact (some "a@x.com") (some "999") .secondary (some rowA.id)
        (mergeRoots rowA.id [] storeA)).2) rowA []
      (by decide) (by decide) (by decide) (by decide)⟩

/-! ### The response value lists: the push loop of buildResponse -/

theorem pushVal_none (acc : List String) : pushVal acc none = acc := rfl

theorem pushVal_some (acc : List String) (y : String) :
    pushVal acc (some y) =
      if (!(y == "") && !(acc.contains y)) then acc ++ [y] else acc := rfl

theorem pushVal_some_true {acc : List String} {y : String}
    (hg : (!(y == "") && !(acc.contains y)) = true) :
    pushVal acc (some y) = acc ++ [y] := by
  rw [pushVal_some, if_pos hg]

theorem pushVal_some_false {acc : List String} {y : String}
    (hg : (!(y == "") && !(acc.contains y)) = false) :
    pushVal acc (some y) = acc := by
  rw [pushVal_some, if_neg]
  rw [hg]
  exact Bool.false_ne_true

theorem guard_true_iff (acc : List String) (y : String) :
    (!(y == "") && !(acc.contains y)) = true ↔ y ≠ "" ∧ y ∉ acc := by
  simp

theorem foldl_pushVal_mem (l : List (Option String)) (acc : List String) (x : String) :
    x ∈ l.foldl pushVal acc ↔ x ∈ acc ∨ (x ≠ "" ∧ some x ∈ l) := by
  induction l generalizing acc with
  | nil => simp
  | cons v rest ih =>
    rw [List.foldl_cons]
    cases v with
    | none =>
      rw [pushVal_none, ih]
      simp
    | some y =>
      cases hg : (!(y == "") && !(acc.contains y)) with
      | true =>
        obtain ⟨hy, hmem⟩ := (guard_true_iff acc y).mp hg
        rw [pushVal_some_true hg, ih]
        constructor
        · rintro (hx | ⟨hx1, hx2⟩)
          · rcases List.mem_append.mp hx with hx | hx
            · exact Or.inl hx
            · rcases List.mem_singleton.mp hx with rfl
              exact Or.inr ⟨hy, List.mem_cons_self _ _⟩
          · exact Or.inr ⟨hx1, List.mem_cons_of_mem _ hx2⟩
        · rintro (hx | ⟨hx1, hx2⟩)
          · exact Or.inl (List.mem_append_left _ hx)
          · rcases List.mem_cons.mp hx2 with heq | hx2
            · have : x = y := by injection heq
              exact Or.inl (List.mem_append_right _ (List.mem_singleton.mpr this))
            · exact Or.inr ⟨hx1, hx2⟩
      | false =>
        have hng : ¬(y ≠ "" ∧ y ∉ acc) := by
          intro hcon
          rw [(guard_true_iff acc y).mpr hcon] at hg
          cases hg
        rw [pushVal_some_false hg, ih]
        constructor
        · rintro (hx | ⟨hx1, hx2⟩)
          · exact Or.inl hx
          · exact Or.inr ⟨hx1, List.mem_cons_of_mem _ hx2⟩
        · rintro (hx | ⟨hx1, hx2⟩)
          · exact Or.inl hx
          · rcases List.mem_cons.mp hx2 with heq | hx2
            · have hxy : x = y := by injection heq
              subst hxy
              rcases Decidable.not_and_iff_or_not.mp hng with hc | hc
              · exact absurd hx1 hc
              · exact Or.inl (Decidable.not_not.mp hc)
            · exact Or.inr ⟨hx1, hx2⟩

theorem foldl_pushVal_nodup (l : List (Option String)) (acc : List String)
    (h : acc.Nodup) : (l.foldl pushVal acc).Nodup := by
  induction l generalizing acc with
  | nil => exact h
  | cons v rest ih =>
    rw [List.foldl_cons]
    cases v with
    | none => exact ih acc h
    | some y =>
      cases hg : (!(y == "") && !(acc.contains y)) with
      | true =>
        obtain ⟨hy, hmem⟩ := (guard_true_iff acc y).mp hg
        rw [pushVal_some_true hg]
        refine ih (acc ++ [y]) ?_
        rw [List.nodup_append]
        exact ⟨h, List.nodup_singleton y, by simpa using hmem⟩
      | false =>
        rw [pushVal_some_false hg]
        exact ih acc h

theorem foldl_pushVal_decomp (l : List (Option String)) (acc : List String) :
    ∃ t, l.foldl pushVal acc = acc ++ t ∧
      t.Sublist ((l.filterMap id).filter fun v => !(v == "")) := by
  induction l generalizing acc with
  | nil => exact ⟨[], (List.append_nil acc).symm, List.nil_sublist _⟩
  | cons v rest ih =>
    rw [List.foldl_cons]
    cases v with
    | none =>
      rw [pushVal_none]
      obtain ⟨t, ht, hsub⟩ := ih acc
      exact ⟨t, ht, hsub⟩
    | some y =>
      have hstream : ((some y :: rest).filterMap id).filter (fun v => !(v == "")) =
          if (!(y == "")) then y :: (rest.filterMap id).filter (fun v => !(v == ""))
          else (rest.filterMap id).filter (fun v => !(v == "")) := by
        show ((y :: rest.filterMap id).filter fun v => !(v == "")) = _
        rw [List.filter_cons]
      cases hg : (!(y == "") && !(acc.contains y)) with
      | true =>
        obtain ⟨hy, -⟩ := (guard_true_iff acc y).mp hg
        rw [pushVal_some_true hg]
        obtain ⟨t, ht, hsub⟩ := ih (acc ++ [y])
        refine ⟨y :: t, by rw [ht, List.append_assoc]; rfl, ?_⟩
        rw [hstream, if_pos (by simpa using hy)]
        exact hsub.cons₂ y
      | false =>
        rw [pushVal_some_false hg]
        obtain ⟨t, ht, hsub⟩ := ih acc
        refine ⟨t, ht, ?_⟩
        rw [hstream]
        split
        · exact hsub.cons y
        · exact hsub

theorem initVal_empty : initVal (some "") = [] := rfl

theorem initVal_some {y : String} (hy : y ≠ "") : initVal (some y) = [y] := by
  show (if (!(y == "")) then [y] else []) = [y]
  rw [if_pos (show (!(y == "")) = true by simp [hy])]

theorem initVal_nodup (v : Option String) : (initVal v).Nodup := by
  cases v with
  | none => exact List.nodup_nil
  | some x =>
    by_cases hx : x = ""
    · subst hx
      rw [initVal_empty]
      exact List.nodup_nil
    · rw [initVal_some hx]
      exact List.nodup_singleton x

theorem mem_initVal {v : Option String} {x : String} :
    x ∈ initVal v ↔ v = some x ∧ x ≠ "" := by
  cases v with
  | none =>
    constructor
    · intro h
      exact absurd h (List.not_mem_nil x)
    · rintro ⟨h, -⟩
      cases h
  | some y =>
    by_cases hy : y = ""
    · subst hy
      rw [initVal_empty]
      constructor
      · intro h
        exact absurd h (List.not_mem_nil x)
      · rintro ⟨h, hne⟩
        injection h with h
        exact absurd h.symm hne
    · rw [initVal_some hy]
      constructor
      · intro h
        rcases List.mem_singleton.mp h with rfl
        exact ⟨rfl, hy⟩
      · rintro ⟨h, -⟩
        injection h with h
        exact List.mem_singleton.mpr h.symm

theorem buildResponse_emails (prim : Contact) (secs : List Contact) :
    (buildResponse prim secs).emails =
      (secs.map (·.email)).foldl pushVal (initVal prim.email) := by
  show secs.foldl (fun acc c => pushVal acc c.email) (initVal prim.email) = _
  rw [List.foldl_map]

theorem buildResponse_phones (prim : Contact) (secs : List Contact) :
    (buildResponse prim secs).phoneNumbers =
      (secs.map (·.phoneNumber)).foldl pushVal (initVal prim.phoneNumber) := by
  show secs.foldl (fun acc c => pushVal acc c.phoneNumber) (initVal prim.phoneNumber) = _
  rw [List.foldl_map]

theorem groupEmails_eq (cs : List Contact) :
    groupEmails cs = ((cs.map (·.email)).filterMap id).filter fun v => !(v == "") := by
  unfold groupEmails
  rw [List.filterMap_map]
  rfl

theorem groupPhones_eq (cs : List Contact) :
    groupPhones cs = ((cs.map (·.phoneNumber)).filterMap id).filter fun v => !(v == "") := by
  unfold groupPhones
  rw [List.filterMap_map]
  rfl

/-- The generic shape of one collected value list: primary's value first when
truthy, then a subsequence of the secondaries' truthy values in order. -/
theorem collected_props (pv : Option String) (vs : List (Option String)) :
    (vs.foldl pushVal (initVal pv)).Nodup ∧
    (∀ x ∈ vs.foldl pushVal (initVal pv), x ≠ "") ∧
    (∀ x, pv = some x → x ≠ "" → (vs.foldl pushVal (initVal pv)).head? = some x) ∧
    (vs.foldl pushVal (initVal pv)).Sublist
      (((pv :: vs).filterMap id).filter fun v => !(v == "")) ∧
    (∀ x, x ∈ vs.foldl pushVal (initVal pv) ↔ x ≠ "" ∧ some x ∈ pv :: vs) := by
  obtain ⟨t, ht, hsub⟩ := foldl_pushVal_decomp vs (initVal pv)
  refine ⟨foldl_pushVal_nodup vs _ (initVal_nodup pv), ?_, ?_, ?_, ?_⟩
  · intro x hx
    rcases (foldl_pushVal_mem vs _ x).mp hx with hx | ⟨hx, -⟩
    · exact (mem_initVal.mp hx).2
    · exact hx
  · intro x hpv hx
    rw [ht, hpv, initVal_some hx]
    rfl
  · rw [ht]
    have hshape : ((pv :: vs).filterMap id).filter (fun v => !(v == "")) =
        initVal pv ++ ((vs.filterMap id).filter fun v => !(v == "")) := by
      cases pv with
      | none => rfl
      | some y =>
        show ((y :: vs.filterMap id).filter fun v => !(v == "")) = _
        rw [List.filter_cons]
        by_cases hy : y = ""
        · subst hy
          rw [initVal_empty, if_neg (by simp)]
          rfl
        · rw [initVal_some hy, if_pos (show (!(y == "")) = true by simp [hy])]
          rfl
    rw [hshape]
    exact (List.Sublist.refl _).append hsub
  · intro x
    rw [foldl_pushVal_mem, mem_initVal]
    constructor
    · rintro (⟨h1, h2⟩ | ⟨h1, h2⟩)
      · exact ⟨h2, h1 ▸ List.mem_cons_self _ _⟩
      · exact ⟨h1, List.mem_cons_of_mem _ h2⟩
    · rintro ⟨h1, h2⟩
      rcases List.mem_cons.mp h2 with heq | h2
      · exact Or.inl ⟨heq.symm, h1⟩
      · exact Or.inr ⟨h1, h2⟩

/-- C7: each response value list is duplicate-free, contains no null or empty
placeholder, starts with the primary's value (when present), is ordered as a
subsequence of the group's truthy values (primary first, then secondaries in
materialization order), and contains exactly the group's truthy values. -/
theorem claim7_response_value_lists (prim : Contact) (secs : List Contact) :
    (buildResponse prim secs).emails.Nodup ∧
    (buildResponse prim secs).phoneNumbers.Nodup ∧
    (∀ v ∈ (buildResponse prim secs).emails, v ≠ "") ∧
    (∀ v ∈ (buildResponse prim secs).phoneNumbers, v ≠ "") ∧
    (∀ x, prim.email = some x → x ≠ "" →
      (buildResponse prim secs).emails.head? = some x) ∧
    (∀ x, prim.phoneNumber = some x → x ≠ "" →
      (buildResponse prim secs).phoneNumbers.head? = some x) ∧
    (buildResponse prim secs).emails.Sublist (groupEmails (prim :: secs)) ∧
    (buildResponse prim secs).phoneNumbers.Sublist (groupPhones (prim :: secs)) ∧
    (∀ x, x ∈ (buildResponse prim secs).emails ↔
      x ≠ "" ∧ some x ∈ (prim :: secs).map (·.email)) ∧
    (∀ x, x ∈ (buildResponse prim secs).phoneNumbers ↔
      x ≠ "" ∧ some x ∈ (prim :: secs).map (·.phoneNumber)) := by
  obtain ⟨he1, he2, he3, he4, he5⟩ := collected_props prim.email (secs.map (·.email))
  obtain ⟨hp1, hp2, hp3, hp4, hp5⟩ := collected_props prim.phoneNumber (secs.map (·.phoneNumber))
  rw [buildResponse_emails, buildResponse_phones, groupEmails_eq, groupPhones_eq]
  refine ⟨he1, hp1, he2, hp2, he3, hp3, ?_, ?_, ?_, ?_⟩
  · rw [show (prim :: secs).map (·.email) = prim.email :: secs.map (·.email) from rfl] at *
    exact he4
  · exact hp4
  · intro x
    rw [he5 x]
    rfl
  · intro x
    rw [hp5 x]
    rfl

/-- Witness for C6: Identify on the empty store creates a primary and
returns it as a singleton group. -/
theorem claim6_witness :
    OkVal (some "a@x.com") ∧ OkVal none ∧
    findByEmailOrPhone (some "a@x.com") none emptyStore = [] ∧
    (((createContact (some "a@x.com") none .primary none emptyStore).2).contacts =
        emptyStore.contacts ++
          [(createContact (some "a@x.com") none .primary none emptyStore).1] ∧
      (createContact (some "a@x.com") none .primary none emptyStore).1.linkPrecedence =
        .primary ∧
      (createContact (some "a@x.com") none .primary none emptyStore).1.linkedId = none ∧
      (createContact (some "a@x.com") none .primary none emptyStore).1.email =
        some "a@x.com" ∧
      (createContact (some "a@x.com") none .primary none emptyStore).1.phoneNumber = none ∧
      (buildResponse (createContact (some "a@x.com") none .primary none emptyStore).1
        []).primaryContatctId = emptyStore.nextId ∧
      (buildResponse (createContact (some "a@x.com") none .primary none emptyStore).1
        []).secondaryContactIds = [] ∧
      (buildResponse (createContact (some "a@x.com") none .primary none emptyStore).1
        []).emails = (some "a@x.com" : Option String).toList ∧
      (buildResponse (createContact (some "a@x.com") none .primary none emptyStore).1
        []).phoneNumbers = (none : Option String).toList) :=
  ⟨by decide, by decide, by decide,
    claim6_no_match_creates_primary (some "a@x.com") none emptyStore
      (buildResponse (createContact (some "a@x.com") none .primary none emptyStore).1 [])
      ((createContact (some "a@x.com") none .primary none emptyStore).2)
      (by decide) (by decide) (by decide) (by decide)⟩

/-- Witness for C7: the value-list properties instantiated on a concrete
primary and secondary list. -/
theorem claim7_witness :
    (buildResponse rowA [rowB, rowC]).emails.Nodup ∧
    (buildResponse rowA [rowB, rowC]).phoneNumbers.Nodup ∧
    (∀ v ∈ (buildResponse rowA [rowB, rowC]).emails, v ≠ "") ∧
    (∀ v ∈ (buildResponse rowA [rowB, rowC]).phoneNumbers, v ≠ "") ∧
    (∀ x, rowA.email = some x → x ≠ "" →
      (buildResponse rowA [rowB, rowC]).emails.head? = some x) ∧
    (∀ x, rowA.phoneNumber = some x → x ≠ "" →
      (buildResponse rowA [rowB, rowC]).phoneNumbers.head? = some x) ∧
    (buildResponse rowA [rowB, rowC]).emails.Sublist (groupEmails (rowA :: [rowB, rowC])) ∧
    (buildResponse rowA [rowB, rowC]).phoneNumbers.Sublist
      (groupPhones (rowA :: [rowB, rowC])) ∧
    (∀ x, x ∈ (buildResponse rowA [rowB, rowC]).emails ↔
      x ≠ "" ∧ some x ∈ (rowA :: [rowB, rowC]).map (·.email)) ∧
    (∀ x, x ∈ (buildResponse rowA [rowB, rowC]).phoneNumbers ↔
      x ≠ "" ∧ some x ∈ (rowA :: [rowB, rowC]).map (·.phoneNumber)) :=
  claim7_response_value_lists rowA [rowB, rowC]

/-! ### Repeating a request: helper facts -/

theorem truthy_of_ok {v : Option String} (hok : OkVal v) (hne : v ≠ none) :
    truthy v = true := by
  cases v with
  | none => exact absurd rfl hne
  | some x =>
    have hx : x ≠ "" := fun h => hok (h ▸ rfl)
    simp [truthy, hx]

theorem nodup_of_pairwise_ids {l : List Contact}
    (h : l.Pairwise fun a b => a.id < b.id) : l.Nodup :=
  h.imp fun hab heq => absurd (heq ▸ hab) (Nat.lt_irrefl _)

theorem isNewVal_false_of_mem {v : Option String} {vals : List String}
    (h : ∀ x, v = some x → x ∈ vals) : isNewVal v vals = false := by
  cases v with
  | none => rfl
  | some x =>
    have hx : x ∈ vals := h x rfl
    simp [isNewVal, hx]

theorem isNewVal_false_elim {x : String} {vals : List String}
    (hx : x ≠ "") (h : isNewVal (some x) vals = false) : x ∈ vals := by
  simp [isNewVal, hx] at h
  exact h

theorem mem_groupEmails {cs : List Contact} {x : String} :
    x ∈ groupEmails cs ↔ x ≠ "" ∧ ∃ c ∈ cs, c.email = some x := by
  unfold groupEmails
  rw [List.mem_filter, List.mem_filterMap]
  constructor
  · rintro ⟨⟨c, hc, hce⟩, hxe⟩
    exact ⟨by simpa using hxe, c, hc, hce⟩
  · rintro ⟨hxe, c, hc, hce⟩
    exact ⟨⟨c, hc, hce⟩, by simpa using hxe⟩

theorem mem_groupPhones {cs : List Contact} {x : String} :
    x ∈ groupPhones cs ↔ x ≠ "" ∧ ∃ c ∈ cs, c.phoneNumber = some x := by
  unfold groupPhones
  rw [List.mem_filter, List.mem_filterMap]
  constructor
  · rintro ⟨⟨c, hc, hce⟩, hxe⟩
    exact ⟨by simpa using hxe, c, hc, hce⟩
  · rintro ⟨hxe, c, hc, hce⟩
    exact ⟨⟨c, hc, hce⟩, by simpa using hxe⟩

/-- Repeating a request that created a fresh primary is a pure lookup: the
second call matches only the new row, resolves it as sole root, finds no new
information, and leaves the store unchanged. -/
theorem repeat_after_create_primary (e p : Option String) (s : Store)
    (hwf : WF s) (he : OkVal e) (hp : OkVal p) (hne : e ≠ none ∨ p ≠ none)
    (hM : findByEmailOrPhone e p s = []) :
    ∃ r2, identifyContact e p (createContact e p .primary none s).2 =
      some (r2, (createContact e p .primary none s).2) := by
  have hmatch : matchesContact e p (createContact e p .primary none s).1 := by
    refine ⟨rfl, ?_⟩
    rcases hne with hne | hne
    · exact Or.inl ⟨truthy_of_ok he hne, rfl⟩
    · exact Or.inr ⟨truthy_of_ok hp hne, rfl⟩
  have hA1 : findByEmailOrPhone e p (createContact e p .primary none s).2 =
      [(createContact e p .primary none s).1] := by
    rw [findByEmailOrPhone_createContact, hM, if_pos (decide_eq_true hmatch)]
    rfl
  have hA2 : collectPrimaryIds [(createContact e p .primary none s).1] =
      [(createContact e p .primary none s).1.id] := by
    refine collectPrimaryIds_const _ _ (List.cons_ne_nil _ _) ?_
    intro c hc
    rcases List.mem_singleton.mp hc with rfl
    unfold rootIdOf
    exact if_pos rfl
  have hwf1 : WF (createContact e p .primary none s).2 :=
    WF_createContact e p .primary none s hwf (Or.inl ⟨rfl, rfl⟩)
  have hroots1 : rootsOf e p (createContact e p .primary none s).2 =
      [(createContact e p .primary none s).1] := by
    rw [rootsOf, hA1, hA2, findPrimaries]
    have hfil : ((createContact e p .primary none s).2).contacts.filter
        (fun c => decide (c.id ∈ [(createContact e p .primary none s).1.id] ∧
          c.deletedAt = none)) = [(createContact e p .primary none s).1] := by
      refine filter_eq_singleton_of_nodup (nodup_of_pairwise_ids hwf1.1) _ _ ?_ ?_ ?_
      · exact List.mem_append_right _ (List.mem_singleton.mpr rfl)
      · exact decide_eq_true ⟨List.mem_singleton.mpr rfl, rfl⟩
      · intro d hd hpd
        obtain ⟨hdid, -⟩ := of_decide_eq_true hpd
        have hdid : d.id = (createContact e p .primary none s).1.id :=
          List.mem_singleton.mp hdid
        rcases List.mem_append.mp hd with hd | hd
        · exact absurd hdid (Nat.ne_of_lt (hwf.2.2.1 d hd))
        · exact List.mem_singleton.mp hd
    rw [hfil]
    rfl
  have hnovel_e : isNewVal e (groupEmails ((createContact e p .primary none s).1 ::
      findByLinkedId (createContact e p .primary none s).1.id
        (mergeRoots (createContact e p .primary none s).1.id []
          (createContact e p .primary none s).2))) = false := by
    refine isNewVal_false_of_mem ?_
    intro x hx
    refine mem_groupEmails.mpr ⟨fun hxe => he (by rw [hx, hxe]), _, List.mem_cons_self _ _, hx⟩
  have hnovel_p : isNewVal p (groupPhones ((createContact e p .primary none s).1 ::
      findByLinkedId (createContact e p .primary none s).1.id
        (mergeRoots (createContact e p .primary none s).1.id []
          (createContact e p .primary none s).2))) = false := by
    refine isNewVal_false_of_mem ?_
    intro x hx
    refine mem_groupPhones.mpr ⟨fun hxe => hp (by rw [hx, hxe]), _, List.mem_cons_self _ _, hx⟩
  refine ⟨buildResponse (createContact e p .primary none s).1
    (findByLinkedId (createContact e p .primary none s).1.id
      (mergeRoots (createContact e p .primary none s).1.id []
        (createContact e p .primary none s).2)), ?_⟩
  rw [identifyContact_match e p (createContact e p .primary none s).2
    (createContact e p .primary none s).1 []
    (by rw [hA1]; exact List.cons_ne_nil _ _) hroots1]
  rw [hnovel_e, hnovel_p]
  rfl

/-- After the merge, every record matching the request resolves directly to
the true primary: matched rows were either the true primary itself, demoted
roots, or secondaries whose root was merged, all now carrying its id. -/
theorem post_match_resolves {e p : Option String} {s : Store} {tp : Contact}
    {tm : List Contact} (hwf : WF s) (hr : rootsOf e p s = tp :: tm) :
    ∀ c ∈ findByEmailOrPhone e p (mergeRoots tp.id tm s), rootIdOf c = some tp.id := by
  obtain ⟨htp_mem, htp_del, htp_prim, htp_none, hnotin, htp_fix⟩ := truePrimary_facts hwf hr
  have htp_ne0 : tp.id ≠ 0 := Nat.pos_iff_ne_zero.mp (hwf.2.1 tp htp_mem)
  intro c hc
  rw [findByEmailOrPhone_merge] at hc
  obtain ⟨c0, hc0, rfl⟩ := List.mem_map.mp hc
  obtain ⟨hc0s, hc0m⟩ := mem_findByEmailOrPhone.mp hc0
  rcases applyMerge_trichotomy tp.id s.now tm c0 hnotin with
    ⟨hin, heq⟩ | ⟨hnin, hdel, ⟨q, hqm, hql⟩, heq⟩ | ⟨hnin, hng, heq⟩
  · rw [heq]
    show (if tp.id ≠ 0 then some tp.id else none) = some tp.id
    rw [if_pos htp_ne0]
  · rw [heq]
    have hc0p : ¬(c0.linkPrecedence = .primary) := by
      intro hcp
      rw [hwf.2.2.2.2.1 c0 hc0s hcp] at hql
      cases hql
    have hc0p2 : ¬(({ c0 with linkedId := some tp.id } : Contact).linkPrecedence =
        .primary) := hc0p
    unfold rootIdOf
    rw [if_neg hc0p2]
    show (if tp.id ≠ 0 then some tp.id else none) = some tp.id
    rw [if_pos htp_ne0]
  · rw [heq]
    by_cases hcp : c0.linkPrecedence = .primary
    · have hidc : c0.id ∈ collectPrimaryIds (findByEmailOrPhone e p s) :=
        mem_collectPrimaryIds.mpr ⟨c0, hc0, by unfold rootIdOf; exact if_pos hcp⟩
      have hc0r : c0 ∈ rootsOf e p s := mem_findPrimaries.mpr ⟨hc0s, hidc, hc0m.1⟩
      rw [hr] at hc0r
      rcases List.mem_cons.mp hc0r with rfl | hc0tm
      · unfold rootIdOf
        exact if_pos hcp
      · exact absurd (List.mem_map_of_mem (·.id) hc0tm) hnin
    · have hsec : c0.linkPrecedence = .secondary := by
        cases hlp : c0.linkPrecedence
        · exact absurd hlp hcp
        · rfl
      obtain ⟨q, hq, hql, hqp, hqd⟩ := hwf.2.2.2.2.2 c0 hc0s hc0m.1 hsec
      have hqne : q.id ≠ 0 := Nat.pos_iff_ne_zero.mp (hwf.2.1 q hq)
      have hidq : q.id ∈ collectPrimaryIds (findByEmailOrPhone e p s) := by
        refine mem_collectPrimaryIds.mpr ⟨c0, hc0, ?_⟩
        unfold rootIdOf
        rw [if_neg hcp, hql]
        show (if q.id ≠ 0 then some q.id else none) = some q.id
        rw [if_pos hqne]
      have hqr : q ∈ rootsOf e p s := mem_findPrimaries.mpr ⟨hq, hidq, hqd⟩
      rw [hr] at hqr
      rcases List.mem_cons.mp hqr with heq | hqtm
      · unfold rootIdOf
        rw [if_neg hcp, hql, heq]
        show (if tp.id ≠ 0 then some tp.id else none) = some tp.id
        rw [if_pos htp_ne0]
      · exact absurd ⟨hc0m.1, q.id, List.mem_map_of_mem (·.id) hqtm, hql⟩ hng

/-- When every matched row of a well-formed store resolves to the same row
tp, the root fetch returns exactly tp. -/
theorem roots_eq_tp_of (e p : Option String) (s1 : Store) (tp : Contact)
    (hwf1 : WF s1) (htp : tp ∈ s1.contacts) (htpd : tp.deletedAt = none)
    (hM2 : findByEmailOrPhone e p s1 ≠ [])
    (hall : ∀ c ∈ findByEmailOrPhone e p s1, rootIdOf c = some tp.id) :
    rootsOf e p s1 = [tp] := by
  rw [rootsOf, collectPrimaryIds_const _ tp.id hM2 hall, findPrimaries]
  have hfil : s1.contacts.filter
      (fun c => decide (c.id ∈ [tp.id] ∧ c.deletedAt = none)) = [tp] := by
    refine filter_eq_singleton_of_nodup (nodup_of_pairwise_ids hwf1.1) _ _ htp
      (decide_eq_true ⟨List.mem_singleton.mpr rfl, htpd⟩) ?_
    intro d hd hpd
    obtain ⟨hdid, -⟩ := of_decide_eq_true hpd
    exact eq_of_mem_of_id_eq hwf1.1 hd htp (List.mem_singleton.mp hdid)
  rw [hfil]
  rfl

/-- A single-root pure lookup: no merge work, no new row, store unchanged. -/
theorem second_call_pure (e p : Option String) (s1 : Store) (tp : Contact)
    (hM2 : findByEmailOrPhone e p s1 ≠ [])
    (hroots2 : rootsOf e p s1 = [tp])
    (hn_e : isNewVal e
      (groupEmails (tp :: findByLinkedId tp.id (mergeRoots tp.id [] s1))) = false)
    (hn_p : isNewVal p
      (groupPhones (tp :: findByLinkedId tp.id (mergeRoots tp.id [] s1))) = false) :
    identifyContact e p s1 =
      some (buildResponse tp (findByLinkedId tp.id (mergeRoots tp.id [] s1)), s1) := by
  rw [identifyContact_match e p s1 tp [] hM2 hroots2, hn_e, hn_p]
  rfl

/-- C5: repeating the identical request is a pure lookup: the second call
returns a result without changing the store (no record created, no linkage
changed). -/
theorem claim5_exact_repeat_pure_lookup (e p : Option String) (s : Store)
    (r1 : ContactResponse) (s1 : Store)
    (hwf : WF s) (he : OkVal e) (hp : OkVal p) (hne : e ≠ none ∨ p ≠ none)
    (h1 : identifyContact e p s = some (r1, s1)) :
    ∃ r2, identifyContact e p s1 = some (r2, s1) := by
  by_cases hM : findByEmailOrPhone e p s = []
  · rw [identifyContact_no_match e p s hM] at h1
    injection h1 with h2
    have hs1 : (createContact e p .primary none s).2 = s1 := congrArg Prod.snd h2
    exact hs1 ▸ repeat_after_create_primary e p s hwf he hp hne hM
  · have hroots := rootsOf_ne_nil_of_resolves (fun c hc => resolves_of_wf hwf hc) hM
    obtain ⟨tp, tm, hr⟩ : ∃ tp tm, rootsOf e p s = tp :: tm := by
      cases hrr : rootsOf e p s with
      | nil => exact absurd hrr hroots
      | cons a b => exact ⟨a, b, rfl⟩
    obtain ⟨htp_mem, htp_del, htp_prim, htp_none, hnotin, htp_fix⟩ := truePrimary_facts hwf hr
    have htp_ne0 : tp.id ≠ 0 := Nat.pos_iff_ne_zero.mp (hwf.2.1 tp htp_mem)
    have hwf1' : WF (mergeRoots tp.id tm s) := WF_mergeRoots hwf hr
    have hMm : findByEmailOrPhone e p (mergeRoots tp.id tm s) ≠ [] := by
      rw [findByEmailOrPhone_merge]
      intro hx
      exact hM (List.map_eq_nil_iff.mp hx)
    rcases identifyContact_match_cases e p s tp tm r1 s1 hr h1 with
      ⟨hc, -, hs1⟩ | ⟨hc, -, hs1⟩
    · -- a secondary was created in call 1
      subst hs1
      have hnew_in : (createContact e p .secondary (some tp.id) (mergeRoots tp.id tm s)).1 ∈
          ((createContact e p .secondary (some tp.id) (mergeRoots tp.id tm s)).2).contacts := by
        rw [createContact_snd_contacts]
        exact List.mem_append_right _ (List.mem_singleton.mpr rfl)
      have hwf2 : WF (createContact e p .secondary (some tp.id) (mergeRoots tp.id tm s)).2 :=
        WF_createContact e p .secondary (some tp.id) (mergeRoots tp.id tm s) hwf1'
          (Or.inr ⟨rfl, tp, truePrimary_in_merged hwf hr, rfl, htp_prim, htp_del⟩)
      have htp2 : tp ∈
          ((createContact e p .secondary (some tp.id) (mergeRoots tp.id tm s)).2).contacts := by
        rw [createContact_snd_contacts]
        exact List.mem_append_left _ (truePrimary_in_merged hwf hr)
      have hM2 : findByEmailOrPhone e p
          (createContact e p .secondary (some tp.id) (mergeRoots tp.id tm s)).2 ≠ [] := by
        rw [findByEmailOrPhone_createContact]
        intro hx
        exact hMm (List.append_eq_nil.mp hx).1
      have hall2 : ∀ c ∈ findByEmailOrPhone e p
          (createContact e p .secondary (some tp.id) (mergeRoots tp.id tm s)).2,
          rootIdOf c = some tp.id := by
        intro c hc2
        rw [findByEmailOrPhone_createContact] at hc2
        rcases List.mem_append.mp hc2 with hc2 | hc2
        · exact post_match_resolves hwf hr c hc2
        · by_cases hmt : decide (matchesContact e p
              ((createContact e p .secondary (some tp.id) (mergeRoots tp.id tm s)).1)) = true
          · rw [if_pos hmt] at hc2
            rcases List.mem_singleton.mp hc2 with rfl
            show (if tp.id ≠ 0 then some tp.id else none) = some tp.id
            rw [if_pos htp_ne0]
          · rw [if_neg hmt] at hc2
            exact absurd hc2 (List.not_mem_nil c)
      have hroots2 : rootsOf e p
          (createContact e p .secondary (some tp.id) (mergeRoots tp.id tm s)).2 = [tp] :=
        roots_eq_tp_of e p _ tp hwf2 htp2 htp_del hM2 hall2
      have hnew_grp : (createContact e p .secondary (some tp.id) (mergeRoots tp.id tm s)).1 ∈
          findByLinkedId tp.id (mergeRoots tp.id []
            (createContact e p .secondary (some tp.id) (mergeRoots tp.id tm s)).2) := by
        show _ ∈ findByLinkedId tp.id
          (createContact e p .secondary (some tp.id) (mergeRoots tp.id tm s)).2
        exact mem_findByLinkedId.mpr ⟨hnew_in, rfl, rfl⟩
      have hn_e : isNewVal e (groupEmails (tp :: findByLinkedId tp.id (mergeRoots tp.id []
          (createContact e p .secondary (some tp.id) (mergeRoots tp.id tm s)).2))) = false := by
        refine isNewVal_false_of_mem ?_
        intro x hx
        exact mem_groupEmails.mpr ⟨fun hxe => he (by rw [hx, hxe]),
          _, List.mem_cons_of_mem _ hnew_grp, hx⟩
      have hn_p : isNewVal p (groupPhones (tp :: findByLinkedId tp.id (mergeRoots tp.id []
          (createContact e p .secondary (some tp.id) (mergeRoots tp.id tm s)).2))) = false := by
        refine isNewVal_false_of_mem ?_
        intro x hx
        exact mem_groupPhones.mpr ⟨fun hxe => hp (by rw [hx, hxe]),
          _, List.mem_cons_of_mem _ hnew_grp, hx⟩
      exact ⟨_, second_call_pure e p _ tp hM2 hroots2 hn_e hn_p⟩
    · -- pure lookup already in call 1
      subst hs1
      obtain ⟨hc_e, hc_p⟩ := Bool.or_eq_false_iff.mp hc
      have hroots2 : rootsOf e p (mergeRoots tp.id tm s) = [tp] :=
        roots_eq_tp_of e p _ tp hwf1' (truePrimary_in_merged hwf hr) htp_del hMm
          (post_match_resolves hwf hr)
      have hn_e : isNewVal e (groupEmails (tp :: findByLinkedId tp.id
          (mergeRoots tp.id [] (mergeRoots tp.id tm s)))) = false := hc_e
      have hn_p : isNewVal p (groupPhones (tp :: findByLinkedId tp.id
          (mergeRoots tp.id [] (mergeRoots tp.id tm s)))) = false := hc_p
      exact ⟨_, second_call_pure e p _ tp hMm hroots2 hn_e hn_p⟩

/-- Witness for C5: repeating the request that created a fresh primary. -/
theorem claim5_witness :
    WF emptyStore ∧ OkVal (some "a@x.com") ∧ OkVal none ∧
    ((some "a@x.com" : Option String) ≠ none ∨ (none : Option String) ≠ none) ∧
    (∃ r2, identifyContact (some "a@x.com") none
        ((createContact (some "a@x.com") none .primary none emptyStore).2) =
      some (r2, (createContact (some "a@x.com") none .primary none emptyStore).2)) :=
  ⟨by decide, by decide, by decide, Or.inl (by decide),
    claim5_exact_repeat_pure_lookup (some "a@x.com") none emptyStore
      (buildResponse (createContact (some "a@x.com") none .primary none emptyStore).1 [])
      ((createContact (some "a@x.com") none .primary none emptyStore).2)
      (by decide) (by decide) (by decide) (Or.inl (by decide)) (by decide)⟩

/-! ### The merge's two writes under store failure -/

theorem mergeRootsF_allSucceed (tpId : Nat) (l : List Contact) (k : Nat) (s : Store) :
    ∃ k', mergeRootsF (fun _ => true) tpId l k s = .ok (k', mergeRoots tpId l s) := by
  induction l generalizing k s with
  | nil => exact ⟨k, rfl⟩
  | cons q rest ih =>
    obtain ⟨k', hk⟩ := ih (k + 2)
      (reassignLinkedId q.id tpId (updateLinkage q.id .secondary (some tpId) s))
    refine ⟨k', ?_⟩
    show mergeRootsF (fun _ => true) tpId rest (k + 2)
      (reassignLinkedId q.id tpId (updateLinkage q.id .secondary (some tpId) s)) = _
    rw [hk]
    rfl

/-- C3 (amended): in a failure-free execution the fallible run agrees with
the ideal one — in particular the demotion update and the bulk re-point of
every merge iteration both apply. The two writes are not atomic: under a
failing schedule the run can stop between them (see the counterexample). -/
theorem claim3_failure_free_merge_completes (e p : Option String) (s : Store) :
    identifyContactF (fun _ => true) e p s =
      match identifyContact e p s with
      | some (r, s1) => (.ok r, s1)
      | none => (.crash, s) := by
  by_cases hM : findByEmailOrPhone e p s = []
  · rw [identifyContact_no_match e p s hM]
    show identifyContactF (fun _ => true) e p s = _
    unfold identifyContactF
    rw [hM]
    rfl
  · have hMf : (findByEmailOrPhone e p s).isEmpty = false := List.isEmpty_eq_false.mpr hM
    cases hrr : rootsOf e p s with
    | nil =>
      rw [identifyContact_crash e p s hM hrr]
      unfold identifyContactF
      rw [rootsOf] at hrr
      simp only [hMf, Bool.false_eq_true, if_false, hrr, if_true]
    | cons tp tm =>
      rw [identifyContact_match e p s tp tm hM hrr]
      unfold identifyContactF
      rw [rootsOf] at hrr
      obtain ⟨k', hk⟩ := mergeRootsF_allSucceed tp.id tm 2 s
      simp only [hMf, Bool.false_eq_true, if_false, hrr, hk]
      cases hcond : (isNewVal e (groupEmails (tp :: findByLinkedId tp.id
          (mergeRoots tp.id tm s))) ||
          isNewVal p (groupPhones (tp :: findByLinkedId tp.id (mergeRoots tp.id tm s)))) with
      | true => rfl
      | false => rfl

/-- C3 counterexample: a store failure between the demotion update and the
bulk re-point leaves the request failed, the former primary B demoted, and
B's secondary C still pointing at the demoted, no-longer-primary id. -/
theorem claim3_counterexample :
    (identifyContactF schedFail3 (some "a@x.com") (some "111") storeABC).1 =
      .storeFailure ∧
    (∃ b ∈ (identifyContactF schedFail3 (some "a@x.com") (some "111") storeABC).2.contacts,
      b.id = rowB.id ∧ b.linkPrecedence = .secondary ∧ b.linkedId = some rowA.id) ∧
    (∃ c ∈ (identifyContactF schedFail3 (some "a@x.com") (some "111") storeABC).2.contacts,
      c.id = rowC.id ∧ c.linkedId = some rowB.id ∧ c.deletedAt = none) ∧
    (identifyContactF schedFail3 (some "a@x.com") (some "111") storeABC).2 ≠ storeABC := by
  decide

end IdentityRecon
